import Mathlib

/-!
Verification of the ANGLE shader-program linking and translation pipeline.

This file gives a shallow embedding, in Lean, of the parts of
src/libANGLE/Program.cpp and src/compiler/translator/TranslatorVulkan.cpp
that decide the claims under examination, and proves (or refutes) each
claim about those definitions.

Conventions used throughout:
- C++ machine integers that carry sentinel values (location and binding
  fields holding -1) are embedded as Int, or as Option Nat where the
  sentinel is the only negative value the code produces.
- The C++ 32-bit bitmask of used attribute registers is embedded as an
  unbounded Nat bitmask (the code only ever sets bits below
  maxVertexAttributes, which is far below 32 in practice).
- Fallible routines return Except/Option.
- Helper routines of the repository that live outside the extracted
  sources (VariableRegisterCount, AllocateFirstFreeBits,
  RunAtTheEndOfShader, the binary stream primitives, and
  ProgramExecutable::reset/save/load) are modelled from the spec; each
  such definition carries a doc comment saying so.
-/

namespace Angle

/-! # Common data model -/

/-- Embedding of gl::RangeUI: a half-open index range [low, high). -/
structure RangeUI where
  low : Nat
  high : Nat
deriving DecidableEq, Repr

/-! # C1: uniform range partition (Program::linkSamplerAndImageBindings,
Program.cpp lines 3529-3628)

The code walks mExecutable->mUniforms from the back with a reverse
iterator: first the run of atomic-counter uniforms, then the run of image
uniforms, then the run of sampler uniforms, assigning RangeUI(low, high)
at each step, and finally the default range [0, low). Only the
classification of each uniform matters for the range computation, so the
uniform list is embedded as a list of classifications. -/

/-- Classification of a linked uniform as tested by isAtomicCounter /
isImage / isSampler / isInDefaultBlock in the range scan. -/
inductive UniformKind where
  | atomicCounter
  | image
  | sampler
  | defaultBlock
deriving DecidableEq, Repr

/-- Embedding of LinkedUniform::isAtomicCounter for the range scan. -/
def UniformKind.isAtomicCounter : UniformKind → Bool
  | .atomicCounter => true
  | _ => false

/-- Embedding of LinkedUniform::isImage for the range scan. -/
def UniformKind.isImage : UniformKind → Bool
  | .image => true
  | _ => false

/-- Embedding of LinkedUniform::isSampler for the range scan. -/
def UniformKind.isSampler : UniformKind → Bool
  | .sampler => true
  | _ => false

/-- Result of the range assignment part of linkSamplerAndImageBindings. -/
structure UniformRanges where
  atomicCounterUniformRange : RangeUI
  imageUniformRange : RangeUI
  samplerUniformRange : RangeUI
  defaultUniformRange : RangeUI
deriving DecidableEq, Repr

/-- Embedding of the range scan of Program::linkSamplerAndImageBindings
(Program.cpp lines 3535-3627).  The reverse-iterator walk that advances
while the current uniform is an atomic counter (then an image, then a
sampler), decrementing low from high = size each time, is exactly
takeWhile on the reversed list then on successive remainders. -/
def linkSamplerAndImageRanges (uniforms : List UniformKind) : UniformRanges :=
  let n := uniforms.length
  let rev := uniforms.reverse
  let ac := (rev.takeWhile UniformKind.isAtomicCounter).length
  let rest1 := rev.drop ac
  let im := (rest1.takeWhile UniformKind.isImage).length
  let rest2 := rest1.drop im
  let sa := (rest2.takeWhile UniformKind.isSampler).length
  { atomicCounterUniformRange := ⟨n - ac, n⟩
    imageUniformRange := ⟨n - ac - im, n - ac⟩
    samplerUniformRange := ⟨n - ac - im - sa, n - ac - im⟩
    defaultUniformRange := ⟨0, n - ac - im - sa⟩ }

/-! # C9: atomic counter buffer grouping (Program::linkAtomicCounterBuffers,
Program.cpp lines 3630-3669)

Only the grouping logic is embedded: for each uniform index in the atomic
counter uniform range, the code searches mAtomicCounterBuffers in order
for a buffer whose binding equals the uniform's binding; on a hit it
appends the uniform index to that buffer's memberIndexes and sets the
uniform's bufferIndex to the buffer's position; otherwise it pushes a new
buffer holding just this member and sets bufferIndex to the new last
position.  (The blockInfo bookkeeping and unionReferencesWith, which do
not affect grouping, are omitted.) -/

/-- Embedding of gl::AtomicCounterBuffer, restricted to the fields the
grouping logic reads and writes. -/
structure AtomicCounterBuffer where
  binding : Int
  memberIndexes : List Nat
deriving DecidableEq, Repr

/-- Inner search loop of linkAtomicCounterBuffers: scan the buffer list in
order for a matching binding, appending the member index on a hit.
Returns the updated list and the matched position (offset by pos), or
none when no buffer matches. -/
def findAndAppendMember : List AtomicCounterBuffer → Int → Nat → Nat →
    Option (List AtomicCounterBuffer × Nat)
  | [], _, _, _ => none
  | buffer :: rest, binding, index, pos =>
    if buffer.binding = binding then
      some (({ buffer with memberIndexes := buffer.memberIndexes ++ [index] } : AtomicCounterBuffer) :: rest, pos)
    else
      match findAndAppendMember rest binding index (pos + 1) with
      | some (rest2, foundPos) => some (buffer :: rest2, foundPos)
      | none => none

/-- One iteration of the loop of Program::linkAtomicCounterBuffers for the
uniform at the given index with the given binding.  Returns the updated
buffer list and the bufferIndex stored into the uniform. -/
def linkAtomicCounterBuffersStep (buffers : List AtomicCounterBuffer)
    (index : Nat) (binding : Int) : List AtomicCounterBuffer × Nat :=
  match findAndAppendMember buffers binding index 0 with
  | some (buffers2, pos) => (buffers2, pos)
  | none => (buffers ++ [{ binding := binding, memberIndexes := [index] }], buffers.length)

/-- Whole loop of Program::linkAtomicCounterBuffers over the atomic
counter uniforms, given as (index, binding) pairs in range order.
Returns the final buffer list and the bufferIndex assigned to each
uniform, in order. -/
def linkAtomicCounterBuffers (atomicUniforms : List (Nat × Int)) :
    List AtomicCounterBuffer × List Nat :=
  atomicUniforms.foldl
    (fun (acc : List AtomicCounterBuffer × List Nat) u =>
      let step := linkAtomicCounterBuffersStep acc.1 u.1 u.2
      (step.1, acc.2 ++ [step.2]))
    ([], [])

/-- Position of the first buffer record with the given binding, if any;
written from the claim's wording for comparison with the embedded search. -/
def firstMatchingBuffer : List AtomicCounterBuffer → Int → Option Nat
  | [], _ => none
  | b :: rest, binding =>
    if b.binding = binding then some 0
    else (firstMatchingBuffer rest binding).map (· + 1)

/-- Specification-side restatement of one grouping step, written from the
claim: if an AtomicCounterBuffer record with the same binding value
already exists (the first such record), the uniform's index is appended to
its member indexes and the uniform's bufferIndex is set to that record's
position; otherwise a new buffer with that binding and exactly this member
is created at the next free buffer index. -/
def linkAtomicCounterBuffersStepSpec (buffers : List AtomicCounterBuffer)
    (index : Nat) (binding : Int) : List AtomicCounterBuffer × Nat :=
  match firstMatchingBuffer buffers binding with
  | some pos =>
    (buffers.take pos ++
      (match buffers.get? pos with
       | some b => [{ b with memberIndexes := b.memberIndexes ++ [index] }]
       | none => []) ++
      buffers.drop (pos + 1),
     pos)
  | none => (buffers ++ [{ binding := binding, memberIndexes := [index] }], buffers.length)

/-! # C10: fragment output index precedence (Program::isOutputSecondaryForLink,
Program.cpp lines 3945-3962)

The shader-declared index qualifier (outputVariable.index, -1 when
absent) takes precedence; only when it is absent is the API-bound
fragment-output index (mFragmentOutputIndexes.getBinding, -1 when absent)
consulted; otherwise the output defaults to index 0 (primary). -/

/-- Embedding of Program::isOutputSecondaryForLink.  shaderIndex is
outputVariable.index and apiIndex is
mFragmentOutputIndexes.getBinding(outputVariable); both use -1 as the
absent sentinel, exactly as the code does. -/
def isOutputSecondaryForLink (shaderIndex apiIndex : Int) : Bool :=
  if shaderIndex ≠ -1 then
    shaderIndex == 1
  else if apiIndex ≠ -1 then
    apiIndex == 1
  else
    false

/-! # C2, C3: attribute location assignment (Program::linkAttributes,
Program.cpp lines 3672-3830)

The function gathers the vertex shader's attributes (all declared ones
for shader version 300 and above, only the active ones before that).  A
first pass applies API bindings to attributes without an explicit
location and walks the registers of every attribute that then has a
location, erroring when the attribute does not fit below
maxVertexAttributes, erroring on an occupied register under strict
aliasing rules (shader version 300 and above, WebGL compatibility, or the
no-aliasing limitation), recording the occupying attribute in
usedAttribMap, and accumulating the usedLocations bitmask.  A second pass
places every still-unlocated attribute with a bitmask first-fit search.
Finally inactive attributes are pruned for version 300 and above. -/

/-- Embedding of sh::ShaderVariable as far as linkAttributes reads it;
vertex attributes are never arrays or structs (asserted by the code), so
the component count of the type stands for the type.  The -1 location
sentinel is embedded as none. -/
structure ShAttribute where
  name : String
  location : Option Nat
  componentCount : Nat
  active : Bool
  builtin : Bool
deriving DecidableEq, Repr

/-- Modelled from the spec: VariableRegisterCount (outside the extracted
sources) gives the number of contiguous registers an attribute occupies,
registers(attr) = ceil(componentCount(attr.type) / 4). -/
def variableRegisterCount (a : ShAttribute) : Nat :=
  (a.componentCount + 3) / 4

/-- Diagnostics written by linkAttributes, one constructor per infoLog
message (lines 3726-3727, 3746-3747, 3772). -/
inductive LinkAttrError where
  | tooBigToFit (name : String) (location : Nat)
  | aliasesAttribute (name otherName : String) (regLocation : Nat)
  | tooManyAttributes (name : String)
deriving DecidableEq, Repr

/-- State threaded through the passes: usedAttribMap maps a register to
the index of the attribute recorded there (the C++ vector of pointers of
size maxAttribs, with null entries embedded as none), and usedLocations
is the register bitmask. -/
structure AttribPassState where
  usedAttribMap : Nat → Option Nat
  usedLocations : Nat

/-- Embedding of the body of the register loop at lines 3732-3757 for a
single register: an occupied register is a link error under strict
aliasing and is otherwise tolerated without updating the map; a free
register records the attribute; the bitmask bit is set in either case. -/
def placeOneReg (strict : Bool) (idx : Nat) (names : Nat → String)
    (name : String) (regLocation : Nat) (st : AttribPassState) :
    Except LinkAttrError AttribPassState :=
  match st.usedAttribMap regLocation with
  | some otherIdx =>
    if strict then
      .error (.aliasesAttribute name (names otherIdx) regLocation)
    else
      .ok { st with usedLocations := st.usedLocations ||| (1 <<< regLocation) }
  | none =>
    .ok { usedAttribMap := Function.update st.usedAttribMap regLocation (some idx)
          usedLocations := st.usedLocations ||| (1 <<< regLocation) }

/-- Register loop at lines 3732-3757: registers regLocation,
regLocation + 1, ..., regLocation + count - 1 in order. -/
def placeRegs (strict : Bool) (idx : Nat) (names : Nat → String)
    (name : String) : Nat → Nat → AttribPassState →
    Except LinkAttrError AttribPassState
  | 0, _, st => .ok st
  | count + 1, regLocation, st =>
    match placeOneReg strict idx names name regLocation st with
    | .error e => .error e
    | .ok st2 => placeRegs strict idx names name count (regLocation + 1) st2

/-- Binding application at lines 3713-3717: an attribute without an
explicit location takes the API binding for its name, when present. -/
def applyBinding (bindings : String → Option Nat) (a : ShAttribute) :
    ShAttribute :=
  match a.location with
  | some _ => a
  | none =>
    match bindings a.name with
    | some b => { a with location := some b }
    | none => a

/-- First pass of linkAttributes (lines 3706-3759): apply bindings, check
fit, and walk the registers of every explicitly located attribute. -/
def linkAttributesPass1 (strict : Bool) (maxAttribs : Nat)
    (bindings : String → Option Nat) (names : Nat → String) :
    List (Nat × ShAttribute) → AttribPassState →
    Except LinkAttrError (List (Nat × ShAttribute) × AttribPassState)
  | [], st => .ok ([], st)
  | (idx, a) :: rest, st =>
    match (applyBinding bindings a).location with
    | some loc =>
      if maxAttribs < variableRegisterCount (applyBinding bindings a) + loc then
        .error (.tooBigToFit (applyBinding bindings a).name loc)
      else
        match placeRegs strict idx names (applyBinding bindings a).name
          (variableRegisterCount (applyBinding bindings a)) loc st with
        | .error e => .error e
        | .ok st2 =>
          match linkAttributesPass1 strict maxAttribs bindings names rest st2 with
          | .error e => .error e
          | .ok (rest2, st3) => .ok ((idx, applyBinding bindings a) :: rest2, st3)
    | none =>
      match linkAttributesPass1 strict maxAttribs bindings names rest st with
      | .error e => .error e
      | .ok (rest2, st3) => .ok ((idx, applyBinding bindings a) :: rest2, st3)

/-- Modelled from the spec: the inner loop of AllocateFirstFreeBits
(outside the extracted sources), a bitmask first-fit search trying each
candidate index in turn against the shifted run mask and claiming the
first free run. -/
def allocateFirstFreeBitsGo (bits mask : Nat) : Nat → Nat → Option (Nat × Nat)
  | _, 0 => none
  | i, fuel + 1 =>
    if bits &&& (mask <<< i) = 0 then
      some (i, bits ||| (mask <<< i))
    else
      allocateFirstFreeBitsGo bits mask (i + 1) fuel

/-- Modelled from the spec: AllocateFirstFreeBits searches for
allocationSize contiguous free bits among the first bitsSize bits,
returning the claimed start index and the updated mask. -/
def allocateFirstFreeBits (bits allocationSize bitsSize : Nat) :
    Option (Nat × Nat) :=
  allocateFirstFreeBitsGo bits ((1 <<< allocationSize) - 1) 0
    (bitsSize - allocationSize + 1)

/-- Second pass of linkAttributes (lines 3761-3778): every attribute still
without a location is packed by the first-fit search; failure to fit is a
link error. -/
def linkAttributesPass2 (maxAttribs : Nat) :
    List (Nat × ShAttribute) → AttribPassState →
    Except LinkAttrError (List (Nat × ShAttribute) × AttribPassState)
  | [], st => .ok ([], st)
  | (idx, a) :: rest, st =>
    match a.location with
    | some _ =>
      match linkAttributesPass2 maxAttribs rest st with
      | .error e => .error e
      | .ok (rest2, st2) => .ok ((idx, a) :: rest2, st2)
    | none =>
      match allocateFirstFreeBits st.usedLocations (variableRegisterCount a)
        maxAttribs with
      | none => .error (.tooManyAttributes a.name)
      | some (availableIndex, newBits) =>
        if maxAttribs < availableIndex + variableRegisterCount a then
          .error (.tooManyAttributes a.name)
        else
          match linkAttributesPass2 maxAttribs rest
            { st with usedLocations := newBits } with
          | .error e => .error e
          | .ok (rest2, st2) =>
            .ok ((idx, { a with location := some availableIndex }) :: rest2, st2)

/-- Attributes paired with their vector index, mirroring iteration over
mProgramInputs. -/
def withIndices {α : Type} : Nat → List α → List (Nat × α)
  | _, [] => []
  | start, a :: rest => (start, a) :: withIndices (start + 1) rest

/-- Inputs of Program::linkAttributes: the vertex shader's declared
attributes, the glBindAttribLocation bindings, and the context
caps/limitations the function reads.  A vertex shader is taken as
attached (without one the function returns with nothing to do). -/
structure AttribLinkInput where
  allAttributes : List ShAttribute
  bindings : String → Option Nat
  maxVertexAttribs : Nat
  shaderVersion : Nat
  webglCompatibility : Bool
  noVertexAttributeAliasing : Bool

/-- Strict aliasing condition of lines 3743-3744: shader version 300 and
above, WebGL compatibility, or the no-aliasing limitation. -/
def strictAliasing (inp : AttribLinkInput) : Bool :=
  decide (300 ≤ inp.shaderVersion) || inp.webglCompatibility ||
    inp.noVertexAttributeAliasing

/-- Attribute selection of lines 3689-3700: all declared attributes for
shader version 300 and above, only active ones before that. -/
def consideredAttributes (inp : AttribLinkInput) : List ShAttribute :=
  if 300 ≤ inp.shaderVersion then inp.allAttributes
  else inp.allAttributes.filter (·.active)

/-- Name of the attribute at a given index of the considered list, as
read back through the usedAttribMap pointers for the aliasing message. -/
def attributeNameAt (attrs : List ShAttribute) (i : Nat) : String :=
  ((attrs.get? i).map ShAttribute.name).getD ""

/-- Embedding of Program::linkAttributes (lines 3672-3830): both passes
followed by the pruning of inactive attributes for shader version 300 and
above.  (The final loop filling the active-location masks from the
resulting locations, lines 3801-3827, computes side tables not observed
by the claims.) -/
def linkAttributes (inp : AttribLinkInput) :
    Except LinkAttrError (List ShAttribute) :=
  match linkAttributesPass1 (strictAliasing inp) inp.maxVertexAttribs
    inp.bindings (attributeNameAt (consideredAttributes inp))
    (withIndices 0 (consideredAttributes inp)) ⟨fun _ => none, 0⟩ with
  | .error e => .error e
  | .ok (attrs1, st1) =>
    match linkAttributesPass2 inp.maxVertexAttribs attrs1 st1 with
    | .error e => .error e
    | .ok (attrs2, _) =>
      .ok (if 300 ≤ inp.shaderVersion then
            (attrs2.map Prod.snd).filter (·.active)
          else attrs2.map Prod.snd)

/-- Effective explicit location of an attribute: the shader-declared
location, or else the API binding (the result of lines 3713-3717). -/
def effectiveLocation (bindings : String → Option Nat) (a : ShAttribute) :
    Option Nat :=
  match a.location with
  | some l => some l
  | none => bindings a.name

/-- Register range of an attribute with an assigned location: start
register and register count. -/
def attrRanges (attrs : List ShAttribute) : List (Nat × Nat) :=
  attrs.filterMap (fun a => a.location.map (fun l => (l, variableRegisterCount a)))

/-- Register ranges of the explicitly placed attributes (shader location
or API binding). -/
def explicitRanges (bindings : String → Option Nat)
    (attrs : List ShAttribute) : List (Nat × Nat) :=
  attrs.filterMap
    (fun a => (effectiveLocation bindings a).map
      (fun l => (l, variableRegisterCount a)))

/-- A register lies in a (start, count) register range. -/
def InRange (q : Nat × Nat) (r : Nat) : Prop :=
  q.1 ≤ r ∧ r < q.1 + q.2

/-- Two register ranges overlap (share at least one register; ranges of
attributes are nonempty since every GLSL type has at least one
component). -/
def rangesOverlap (x y : Nat × Nat) : Prop :=
  max x.1 y.1 < min (x.1 + x.2) (y.1 + y.2)

/-- No register of the range is set in the bitmask. -/
def RangeFree (bits : Nat) (q : Nat × Nat) : Prop :=
  ∀ r, InRange q r → bits.testBit r = false

instance (x y : Nat × Nat) : Decidable (rangesOverlap x y) := by
  unfold rangesOverlap
  infer_instance

/-- Whether an explicitly placed attribute fits below the register cap
(the complement of the check at lines 3722-3730). -/
def fitsBelow (bindings : String → Option Nat) (maxAttribs : Nat)
    (a : ShAttribute) : Bool :=
  match effectiveLocation bindings a with
  | some loc => decide (loc + variableRegisterCount a ≤ maxAttribs)
  | none => true

/-- Register ranges of an indexed attribute list. -/
def pairRanges (l : List (Nat × ShAttribute)) : List (Nat × Nat) :=
  attrRanges (l.map Prod.snd)

/-- A version-300 vertex attribute set with two vec4 attributes both at
explicit location 0 (the C3 scenario), and a mixed set for the C2
witness. -/
def aliasedScenarioInput : AttribLinkInput :=
  { allAttributes :=
      [{ name := "a", location := some 0, componentCount := 4,
         active := true, builtin := false },
       { name := "b", location := some 0, componentCount := 4,
         active := true, builtin := false }]
    bindings := fun _ => none
    maxVertexAttribs := 16
    shaderVersion := 300
    webglCompatibility := false
    noVertexAttributeAliasing := false }

/-- A small attribute set exercising explicit locations, API bindings and
first-fit packing, used as the C2 witness input: a 9-component attribute
without location, a vec4 at explicit location 1, and a vec4 bound by the
API to location 5. -/
def packingWitnessInput : AttribLinkInput :=
  { allAttributes :=
      [{ name := "c", location := none, componentCount := 9,
         active := true, builtin := false },
       { name := "d", location := some 1, componentCount := 4,
         active := true, builtin := false },
       { name := "e", location := none, componentCount := 4,
         active := true, builtin := false }]
    bindings := fun n => if n = "e" then some 5 else none
    maxVertexAttribs := 16
    shaderVersion := 100
    webglCompatibility := false
    noVertexAttributeAliasing := false }

/-! # C4: failure semantics of relinking (Program::link lines 1436-1448,
Program::linkImpl lines 1453-1638, Program::unlink lines 1791-1822)

Program::linkImpl asserts that no LinkingState is pending (resolveLink
consumed the previous one), clears mLinked, resets the info log, and
validates the attached shaders; a validation failure returns before
unlink() is called.  Otherwise, after the cache probe misses, unlink()
runs: because mLinkingState is null at that point, the branch that would
start from a copy of the last linked executable is not taken and the
current executable object is reset in place.  Each subsequent failing
step writes its diagnostic into the info log and returns.  On success a
LinkingState is created, whose linkedExecutable member is populated only
for separable programs.  Program::link then restores mState.mExecutable
from mLinkingState->linkedExecutable when both exist. -/

/-- Embedding of ProgramExecutable as far as the claim observes it: the
resource tables of the last successful link, or none when reset. -/
structure Executable where
  tables : Option (List Nat)
deriving DecidableEq, Repr

/-- Modelled from the spec: ProgramExecutable::reset clears the resource
tables (the surrounding unlink() code likewise clears every piece of
linked state held in ProgramState). -/
def resetExecutable (_e : Executable) : Executable :=
  { tables := none }

/-- Embedding of Program::LinkingState, restricted to the member the
failure path reads (lines 788-795). -/
structure LinkingState where
  linkedExecutable : Option Executable
deriving DecidableEq, Repr

/-- Embedding of the Program object state touched by link/unlink. -/
structure Program where
  executable : Executable
  infoLog : List String
  linkingState : Option LinkingState
  linked : Bool
  separable : Bool
deriving DecidableEq, Repr

/-- Outcome of the linking steps of one link attempt: the attached-shader
validation fails, some later frontend linking step fails (attributes,
varyings, uniforms, blocks, outputs, ...), or the frontend succeeds with
the given new resource tables.  The cache probe is taken as missing,
which is the only possibility on a failing link. -/
inductive LinkOutcome where
  | validateFail (msg : String)
  | stepFail (msg : String)
  | success (newTables : List Nat)
deriving DecidableEq, Repr

/-- Embedding of Program::unlink (lines 1791-1822): when a pending
LinkingState carries a last linked executable the new executable starts
from a copy of it; the executable is then reset, and mLinked cleared. -/
def Program.unlink (p : Program) : Program :=
  let exec :=
    match p.linkingState with
    | some ls =>
      match ls.linkedExecutable with
      | some e => e
      | none => p.executable
    | none => p.executable
  { p with executable := resetExecutable exec, linked := false }

/-- Embedding of Program::linkImpl (lines 1453-1638) as a function of the
outcome of its steps, for a program with no pending LinkingState (the
function asserts this on entry) and a missed cache probe. -/
def Program.linkImpl (p : Program) (outcome : LinkOutcome) : Program :=
  let p1 : Program := { p with linked := false, infoLog := [] }
  match outcome with
  | .validateFail msg => { p1 with infoLog := p1.infoLog ++ [msg] }
  | .stepFail msg =>
    let p2 := p1.unlink
    { p2 with infoLog := p2.infoLog ++ [msg] }
  | .success newTables =>
    let p2 := p1.unlink
    { p2 with
      executable := { tables := some newTables }
      linkingState := some
        { linkedExecutable :=
            if p2.separable then some { tables := some newTables } else none } }

/-- Embedding of Program::link (lines 1436-1448): run linkImpl, then, when
a LinkingState with a linkedExecutable exists, point the executable back
at it. -/
def Program.link (p : Program) (outcome : LinkOutcome) : Program :=
  let q := p.linkImpl outcome
  match q.linkingState with
  | some ls =>
    match ls.linkedExecutable with
    | some e => { q with executable := e }
    | none => q
  | none => q

/-! # C5: binary serialization round trip (Program::serialize lines
4536-4727, Program::deserialize lines 4729-4986, record helpers lines
705-785 and 907-967)

The binary stream is embedded as a list of tagged items (ints, bools,
strings); BinaryOutputStream::writeInt / writeBool / writeString /
writeIntVector and their readInt / readBool / readString /
readIntVector counterparts (outside the extracted sources) are modelled
from the spec as appending, respectively consuming, such items, vectors
being length-prefixed homogeneous sequences.  Record structures carry
exactly the fields the serializers touch. -/

/-- One item of the binary stream. -/
inductive StreamItem where
  | i (v : Int)
  | b (v : Bool)
  | s (v : String)
deriving DecidableEq, Repr

/-- Readers consume a prefix of the stream. -/
abbrev Rd (α : Type) : Type := List StreamItem → Option (α × List StreamItem)

/-- Modelled from the spec: writeInt appends one integer record. -/
def wInt (v : Int) : List StreamItem := [.i v]

/-- An unsigned count or range bound, written as an integer record. -/
def wNat (n : Nat) : List StreamItem := [.i (n : Int)]

/-- Modelled from the spec: writeBool appends one boolean record. -/
def wBool (v : Bool) : List StreamItem := [.b v]

/-- Modelled from the spec: writeString appends one string record. -/
def wStr (v : String) : List StreamItem := [.s v]

/-- Modelled from the spec: vectors are length-prefixed homogeneous
sequences of records. -/
def wList {α : Type} (w : α → List StreamItem) (l : List α) : List StreamItem :=
  wNat l.length ++ (l.map w).flatten

/-- writeIntVector. -/
def wIntList (l : List Int) : List StreamItem := wList wInt l

/-- Reader for one integer record. -/
def rdInt : Rd Int
  | .i v :: rest => some (v, rest)
  | _ => none

/-- Reader for a count (a nonnegative integer record). -/
def rdNat : Rd Nat := fun s =>
  match rdInt s with
  | some (v, rest) => if v < 0 then none else some (v.toNat, rest)
  | none => none

/-- Reader for one boolean record. -/
def rdBool : Rd Bool
  | .b v :: rest => some (v, rest)
  | _ => none

/-- Reader for one string record. -/
def rdStr : Rd String
  | .s v :: rest => some (v, rest)
  | _ => none

/-- Reader for a fixed number of records. -/
def rdListN {α : Type} (r : Rd α) : Nat → Rd (List α)
  | 0 => fun s => some ([], s)
  | n + 1 => fun s =>
    match r s with
    | some (a, s2) =>
      match rdListN r n s2 with
      | some (l, s3) => some (a :: l, s3)
      | none => none
    | none => none

/-- Reader for a length-prefixed sequence. -/
def rdList {α : Type} (r : Rd α) : Rd (List α) := fun s =>
  match rdNat s with
  | some (n, s2) => rdListN r n s2
  | none => none

/-- Reader for an integer vector. -/
def rdIntList : Rd (List Int) := rdList rdInt

/-- Per-shader-stage active flags, written in the fixed AllShaderTypes
order (this source tree has the vertex, fragment, geometry and compute
stages). -/
structure ActiveShaderBits where
  vertex : Bool
  fragment : Bool
  geometry : Bool
  compute : Bool
deriving DecidableEq, Repr

/-- Active-flag block as written by the loops over AllShaderTypes. -/
def wActive (v : ActiveShaderBits) : List StreamItem :=
  wBool v.vertex ++ wBool v.fragment ++ wBool v.geometry ++ wBool v.compute

/-- Reader matching wActive. -/
def rdActive : Rd ActiveShaderBits := fun s =>
  match rdBool s with
  | some (v1, s) =>
    match rdBool s with
    | some (v2, s) =>
      match rdBool s with
      | some (v3, s) =>
        match rdBool s with
        | some (v4, s) => some (⟨v1, v2, v3, v4⟩, s)
        | none => none
      | none => none
    | none => none
  | none => none

/-- Fields of sh::ShaderVariable serialized by WriteShaderVar (lines
925-946); parentArrayIndex is written as -1 when absent. -/
structure ShaderVar where
  type : Int
  precision : Int
  name : String
  mappedName : String
  arraySizes : List Int
  staticUse : Bool
  active : Bool
  binding : Int
  structName : String
  mappedStructName : String
  parentArrayIndex : Int
  imageUnitFormat : Int
  offset : Int
  readonly : Bool
  writeonly : Bool
  texelFetchStaticUse : Bool
deriving DecidableEq, Repr

/-- Embedding of WriteShaderVar (lines 925-946). -/
def wShaderVar (v : ShaderVar) : List StreamItem :=
  wInt v.type ++ wInt v.precision ++ wStr v.name ++ wStr v.mappedName ++
  wIntList v.arraySizes ++ wBool v.staticUse ++ wBool v.active ++
  wInt v.binding ++ wStr v.structName ++ wStr v.mappedStructName ++
  wInt v.parentArrayIndex ++ wInt v.imageUnitFormat ++ wInt v.offset ++
  wBool v.readonly ++ wBool v.writeonly ++ wBool v.texelFetchStaticUse

/-- Embedding of LoadShaderVar (lines 948-967). -/
def rdShaderVar : Rd ShaderVar := fun s =>
  match rdInt s with
  | some (type, s) =>
    match rdInt s with
    | some (precision, s) =>
      match rdStr s with
      | some (name, s) =>
        match rdStr s with
        | some (mappedName, s) =>
          match rdIntList s with
          | some (arraySizes, s) =>
            match rdBool s with
            | some (staticUse, s) =>
              match rdBool s with
              | some (active, s) =>
                match rdInt s with
                | some (binding, s) =>
                  match rdStr s with
                  | some (structName, s) =>
                    match rdStr s with
                    | some (mappedStructName, s) =>
                      match rdInt s with
                      | some (parentArrayIndex, s) =>
                        match rdInt s with
                        | some (imageUnitFormat, s) =>
                          match rdInt s with
                          | some (offset, s) =>
                            match rdBool s with
                            | some (readonly, s) =>
                              match rdBool s with
                              | some (writeonly, s) =>
                                match rdBool s with
                                | some (texelFetchStaticUse, s) =>
                                  some (⟨type, precision, name, mappedName,
                                    arraySizes, staticUse, active, binding,
                                    structName, mappedStructName,
                                    parentArrayIndex, imageUnitFormat, offset,
                                    readonly, writeonly,
                                    texelFetchStaticUse⟩, s)
                                | none => none
                              | none => none
                            | none => none
                          | none => none
                        | none => none
                      | none => none
                    | none => none
                  | none => none
                | none => none
              | none => none
            | none => none
          | none => none
        | none => none
      | none => none
    | none => none
  | none => none

/-- Fields of sh::BlockMemberInfo serialized by WriteBlockMemberInfo
(lines 907-914). -/
structure BlockMemberInfo where
  arrayStride : Int
  isRowMajorMatrix : Bool
  matrixStride : Int
  offset : Int
  topLevelArrayStride : Int
deriving DecidableEq, Repr

/-- Embedding of WriteBlockMemberInfo (lines 907-914). -/
def wBlockMemberInfo (v : BlockMemberInfo) : List StreamItem :=
  wInt v.arrayStride ++ wBool v.isRowMajorMatrix ++ wInt v.matrixStride ++
  wInt v.offset ++ wInt v.topLevelArrayStride

/-- Embedding of LoadBlockMemberInfo (lines 916-923). -/
def rdBlockMemberInfo : Rd BlockMemberInfo := fun s =>
  match rdInt s with
  | some (arrayStride, s) =>
    match rdBool s with
    | some (isRowMajorMatrix, s) =>
      match rdInt s with
      | some (matrixStride, s) =>
        match rdInt s with
        | some (offset, s) =>
          match rdInt s with
          | some (topLevelArrayStride, s) =>
            some (⟨arrayStride, isRowMajorMatrix, matrixStride, offset,
              topLevelArrayStride⟩, s)
          | none => none
        | none => none
      | none => none
    | none => none
  | none => none

/-- Fields of ShaderVariableBuffer serialized by WriteShaderVariableBuffer
(lines 705-720). -/
structure ShaderVariableBuffer where
  binding : Int
  dataSize : Int
  activeShaders : ActiveShaderBits
  memberIndexes : List Int
deriving DecidableEq, Repr

/-- Embedding of WriteShaderVariableBuffer (lines 705-720). -/
def wShaderVariableBuffer (v : ShaderVariableBuffer) : List StreamItem :=
  wInt v.binding ++ wInt v.dataSize ++ wActive v.activeShaders ++
  wIntList v.memberIndexes

/-- Embedding of LoadShaderVariableBuffer (lines 722-737). -/
def rdShaderVariableBuffer : Rd ShaderVariableBuffer := fun s =>
  match rdInt s with
  | some (binding, s) =>
    match rdInt s with
    | some (dataSize, s) =>
      match rdActive s with
      | some (activeShaders, s) =>
        match rdIntList s with
        | some (memberIndexes, s) =>
          some (⟨binding, dataSize, activeShaders, memberIndexes⟩, s)
        | none => none
      | none => none
    | none => none
  | none => none

/-- Fields of gl::InterfaceBlock serialized by WriteInterfaceBlock (lines
767-775). -/
structure InterfaceBlock where
  name : String
  mappedName : String
  isArray : Bool
  arrayElement : Int
  buffer : ShaderVariableBuffer
deriving DecidableEq, Repr

/-- Embedding of WriteInterfaceBlock (lines 767-775). -/
def wInterfaceBlock (v : InterfaceBlock) : List StreamItem :=
  wStr v.name ++ wStr v.mappedName ++ wBool v.isArray ++
  wInt v.arrayElement ++ wShaderVariableBuffer v.buffer

/-- Embedding of LoadInterfaceBlock (lines 777-785). -/
def rdInterfaceBlock : Rd InterfaceBlock := fun s =>
  match rdStr s with
  | some (name, s) =>
    match rdStr s with
    | some (mappedName, s) =>
      match rdBool s with
      | some (isArray, s) =>
        match rdInt s with
        | some (arrayElement, s) =>
          match rdShaderVariableBuffer s with
          | some (buffer, s) =>
            some (⟨name, mappedName, isArray, arrayElement, buffer⟩, s)
          | none => none
        | none => none
      | none => none
    | none => none
  | none => none

/-- Fields of BufferVariable serialized by WriteBufferVariable (lines
739-751). -/
structure BufferVariable where
  var : ShaderVar
  bufferIndex : Int
  blockInfo : BlockMemberInfo
  topLevelArraySize : Int
  activeShaders : ActiveShaderBits
deriving DecidableEq, Repr

/-- Embedding of WriteBufferVariable (lines 739-751). -/
def wBufferVariable (v : BufferVariable) : List StreamItem :=
  wShaderVar v.var ++ wInt v.bufferIndex ++ wBlockMemberInfo v.blockInfo ++
  wInt v.topLevelArraySize ++ wActive v.activeShaders

/-- Embedding of LoadBufferVariable (lines 753-765). -/
def rdBufferVariable : Rd BufferVariable := fun s =>
  match rdShaderVar s with
  | some (var, s) =>
    match rdInt s with
    | some (bufferIndex, s) =>
      match rdBlockMemberInfo s with
      | some (blockInfo, s) =>
        match rdInt s with
        | some (topLevelArraySize, s) =>
          match rdActive s with
          | some (activeShaders, s) =>
            some (⟨var, bufferIndex, blockInfo, topLevelArraySize,
              activeShaders⟩, s)
          | none => none
        | none => none
      | none => none
    | none => none
  | none => none

/-- Fields of gl::LinkedUniform serialized in the uniform loop of
Program::serialize (lines 4574-4591). -/
structure LinkedUniform where
  var : ShaderVar
  bufferIndex : Int
  blockInfo : BlockMemberInfo
  outerArraySizes : List Int
  activeShaders : ActiveShaderBits
deriving DecidableEq, Repr

/-- One uniform record (lines 4574-4591). -/
def wLinkedUniform (v : LinkedUniform) : List StreamItem :=
  wShaderVar v.var ++ wInt v.bufferIndex ++ wBlockMemberInfo v.blockInfo ++
  wIntList v.outerArraySizes ++ wActive v.activeShaders

/-- Matching reader (lines 4773-4791). -/
def rdLinkedUniform : Rd LinkedUniform := fun s =>
  match rdShaderVar s with
  | some (var, s) =>
    match rdInt s with
    | some (bufferIndex, s) =>
      match rdBlockMemberInfo s with
      | some (blockInfo, s) =>
        match rdIntList s with
        | some (outerArraySizes, s) =>
          match rdActive s with
          | some (activeShaders, s) =>
            some (⟨var, bufferIndex, blockInfo, outerArraySizes,
              activeShaders⟩, s)
          | none => none
        | none => none
      | none => none
    | none => none
  | none => none

/-- A VariableLocation record (lines 4593-4599): arrayIndex, index
(written via writeIntOrNegOne, read back as the same integer), and the
ignored flag. -/
structure VariableLocation where
  arrayIndex : Int
  index : Int
  ignored : Bool
deriving DecidableEq, Repr

/-- One location record (lines 4593-4599). -/
def wVariableLocation (v : VariableLocation) : List StreamItem :=
  wInt v.arrayIndex ++ wInt v.index ++ wBool v.ignored

/-- Matching reader (lines 4794-4804). -/
def rdVariableLocation : Rd VariableLocation := fun s =>
  match rdInt s with
  | some (arrayIndex, s) =>
    match rdInt s with
    | some (index, s) =>
      match rdBool s with
      | some (ignored, s) => some (⟨arrayIndex, index, ignored⟩, s)
      | none => none
    | none => none
  | none => none

/-- A linked transform feedback varying record (lines 4634-4642). -/
structure TransformFeedbackVarying where
  arraySizes : List Int
  type : Int
  name : String
  arrayIndex : Int
deriving DecidableEq, Repr

/-- One transform feedback varying record (lines 4634-4642). -/
def wTransformFeedbackVarying (v : TransformFeedbackVarying) : List StreamItem :=
  wIntList v.arraySizes ++ wInt v.type ++ wStr v.name ++ wInt v.arrayIndex

/-- Matching reader (lines 4864-4876). -/
def rdTransformFeedbackVarying : Rd TransformFeedbackVarying := fun s =>
  match rdIntList s with
  | some (arraySizes, s) =>
    match rdInt s with
    | some (type, s) =>
      match rdStr s with
      | some (name, s) =>
        match rdInt s with
        | some (arrayIndex, s) => some (⟨arraySizes, type, name, arrayIndex⟩, s)
        | none => none
      | none => none
    | none => none
  | none => none

/-- A SamplerBinding: texture type, sampler type, format and the bound
texture units.  Only the unit COUNT is serialized (line 4696); the
deserializer reconstructs that many units bound to unit 0 (lines
4936-4945, via the SamplerBinding constructor at lines 979-987). -/
structure SamplerBindingS where
  textureType : Int
  samplerType : Int
  format : Int
  boundTextureUnits : List Int
deriving DecidableEq, Repr

/-- One sampler binding record (lines 4690-4697). -/
def wSamplerBinding (v : SamplerBindingS) : List StreamItem :=
  wInt v.textureType ++ wInt v.samplerType ++ wInt v.format ++
  wNat v.boundTextureUnits.length

/-- Matching reader (lines 4936-4945): the units come back as zeros. -/
def rdSamplerBinding : Rd SamplerBindingS := fun s =>
  match rdInt s with
  | some (textureType, s) =>
    match rdInt s with
    | some (samplerType, s) =>
      match rdInt s with
      | some (format, s) =>
        match rdNat s with
        | some (bindingCount, s) =>
          some (⟨textureType, samplerType, format,
            List.replicate bindingCount 0⟩, s)
        | none => none
      | none => none
    | none => none
  | none => none

/-- An ImageBinding: every bound image unit is serialized (lines
4702-4711). -/
structure ImageBinding where
  boundImageUnits : List Int
  textureType : Int
deriving DecidableEq, Repr

/-- One image binding record (lines 4702-4711): unit count, texture type,
then each unit. -/
def wImageBinding (v : ImageBinding) : List StreamItem :=
  wNat v.boundImageUnits.length ++ wInt v.textureType ++
  (v.boundImageUnits.map wInt).flatten

/-- Matching reader (lines 4950-4959). -/
def rdImageBinding : Rd ImageBinding := fun s =>
  match rdNat s with
  | some (elementCount, s) =>
    match rdInt s with
    | some (textureType, s) =>
      match rdListN rdInt elementCount s with
      | some (units, s) => some (⟨units, textureType⟩, s)
      | none => none
    | none => none
  | none => none

/-- A program input with its location (lines 4567-4572). -/
structure ProgramAttrib where
  var : ShaderVar
  location : Int
deriving DecidableEq, Repr

/-- One attribute record. -/
def wProgramAttrib (v : ProgramAttrib) : List StreamItem :=
  wShaderVar v.var ++ wInt v.location

/-- Matching reader (lines 4763-4769). -/
def rdProgramAttrib : Rd ProgramAttrib := fun s =>
  match rdShaderVar s with
  | some (var, s) =>
    match rdInt s with
    | some (location, s) => some (⟨var, location⟩, s)
    | none => none
  | none => none

/-- A fragment output variable with location and index (lines
4646-4652). -/
structure OutputVar where
  var : ShaderVar
  location : Int
  index : Int
deriving DecidableEq, Repr

/-- One output record. -/
def wOutputVar (v : OutputVar) : List StreamItem :=
  wShaderVar v.var ++ wInt v.location ++ wInt v.index

/-- Matching reader (lines 4882-4889). -/
def rdOutputVar : Rd OutputVar := fun s =>
  match rdShaderVar s with
  | some (var, s) =>
    match rdInt s with
    | some (location, s) =>
      match rdInt s with
      | some (index, s) => some (⟨var, location, index⟩, s)
      | none => none
    | none => none
  | none => none

/-- A uniform index range written as low then high. -/
def wRange (q : RangeUI) : List StreamItem := wNat q.low ++ wNat q.high

/-- Matching reader. -/
def rdRange : Rd RangeUI := fun s =>
  match rdNat s with
  | some (low, s) =>
    match rdNat s with
    | some (high, s) => some (⟨low, high⟩, s)
    | none => none
  | none => none

/-- The resource tables of a linked program serialized by
Program::serialize after the build identifier and context version, in
stream order.  execIsCompute and execBlob stand for the data written by
ProgramExecutable::save (line 4555), which lives outside the extracted
sources and is modelled from the spec as fixed-layout records including
the linked-stage information that isCompute is derived from. -/
structure ProgramTables where
  execIsCompute : Bool
  execBlob : List Int
  computeLocalSizeX : Int
  computeLocalSizeY : Int
  computeLocalSizeZ : Int
  numViews : Int
  earlyFragmentTestsOptimization : Bool
  specConstUsageBits : Int
  programInputs : List ProgramAttrib
  uniforms : List LinkedUniform
  uniformLocations : List VariableLocation
  uniformBlocks : List InterfaceBlock
  bufferVariables : List BufferVariable
  shaderStorageBlocks : List InterfaceBlock
  atomicCounterBuffers : List ShaderVariableBuffer
  linkedTransformFeedbackVaryings : List TransformFeedbackVarying
  transformFeedbackBufferMode : Int
  outputVariables : List OutputVar
  outputLocations : List VariableLocation
  secondaryOutputLocations : List VariableLocation
  outputVariableTypes : List Int
  drawBufferTypeMask : Int
  activeOutputVariables : Int
  yuvOutput : Bool
  defaultUniformRange : RangeUI
  samplerUniformRange : RangeUI
  samplerBindings : List SamplerBindingS
  imageUniformRange : RangeUI
  imageBindings : List ImageBinding
  atomicCounterUniformRange : RangeUI
deriving DecidableEq, Repr

/-- Embedding of the front-end part of Program::serialize (lines
4536-4714): the build identifier, the context API version, and every
resource table in stream order.  (mProgram->save at line 4716 appends
backend data after this prefix and is not part of the front-end
tables.) -/
def serializeProgram (commitHash : List Int) (major minor : Int)
    (t : ProgramTables) : List StreamItem :=
  (commitHash.map StreamItem.i) ++
  wInt major ++ wInt minor ++
  wBool t.execIsCompute ++ wIntList t.execBlob ++
  wInt t.computeLocalSizeX ++ wInt t.computeLocalSizeY ++
  wInt t.computeLocalSizeZ ++
  wInt t.numViews ++ wBool t.earlyFragmentTestsOptimization ++
  wInt t.specConstUsageBits ++
  wList wProgramAttrib t.programInputs ++
  wList wLinkedUniform t.uniforms ++
  wList wVariableLocation t.uniformLocations ++
  wList wInterfaceBlock t.uniformBlocks ++
  wList wBufferVariable t.bufferVariables ++
  wList wInterfaceBlock t.shaderStorageBlocks ++
  wList wShaderVariableBuffer t.atomicCounterBuffers ++
  wList wTransformFeedbackVarying t.linkedTransformFeedbackVaryings ++
  wInt t.transformFeedbackBufferMode ++
  wList wOutputVar t.outputVariables ++
  wList wVariableLocation t.outputLocations ++
  wList wVariableLocation t.secondaryOutputLocations ++
  wList wInt t.outputVariableTypes ++
  wInt t.drawBufferTypeMask ++ wInt t.activeOutputVariables ++
  wBool t.yuvOutput ++
  wRange t.defaultUniformRange ++
  wRange t.samplerUniformRange ++
  wList wSamplerBinding t.samplerBindings ++
  wRange t.imageUniformRange ++
  wList wImageBinding t.imageBindings ++
  wRange t.atomicCounterUniformRange

/-- Modelled from the spec: getBasicTypeElementCount of a flattened
uniform is one bound unit per array element (1 when the uniform is not an
array, the outermost array size otherwise). -/
def basicTypeElementCount (v : ShaderVar) : Nat :=
  match v.arraySizes.getLast? with
  | none => 1
  | some n => n.toNat

/-- Effect of setUniformValuesFromBindingQualifiers (lines 4292-4314)
composed with setUniform1iv/updateSamplerUniform (lines 4327-4355) on one
sampler's bound texture units: for a sampler uniform with an explicit
binding, the first min(elementCount, size) units become binding + k; the
remaining units keep their current value. -/
def overlayBoundUnits (binding : Int) (count : Nat) (units : List Int) :
    List Int :=
  ((List.range (min count units.length)).map (fun k => binding + (k : Int))) ++
    units.drop (min count units.length)

/-- Effect of setUniformValuesFromBindingQualifiers on the sampler
binding table: the i-th sampler binding corresponds to the uniform at
samplerLow + i of the flattened uniform list (the location lookup of
lines 4299-4300 combined with getSamplerIndexFromUniformIndex resolves to
this correspondence); samplers without an explicit binding are left
alone. -/
def applySamplerBindingQualifiers (uniforms : List LinkedUniform)
    (samplerLow : Nat) (sbs : List SamplerBindingS) : List SamplerBindingS :=
  sbs.mapIdx fun i sb =>
    match uniforms.get? (samplerLow + i) with
    | some u =>
      if u.var.binding = -1 then sb
      else { sb with boundTextureUnits :=
        (overlayBoundUnits u.var.binding (basicTypeElementCount u.var)
          sb.boundTextureUnits) }
    | none => sb

/-- Table-reading tail of Program::deserialize (lines 4761-4986), from
the program inputs to the atomic counter range, finishing with the
sampler-binding-qualifier replay of postResolveLink. -/
def deserializeTables (disableXfbCaching execIsCompute : Bool)
    (execBlob : List Int) (clsX clsY clsZ numViews : Int)
    (earlyFrag : Bool) (specConst : Int) (s : List StreamItem) :
    Option (ProgramTables × List StreamItem) :=
  match rdList rdProgramAttrib s with
  | none => none
  | some (programInputs, s) =>
    match rdList rdLinkedUniform s with
    | none => none
    | some (uniforms, s) =>
      match rdList rdVariableLocation s with
      | none => none
      | some (uniformLocations, s) =>
        match rdList rdInterfaceBlock s with
        | none => none
        | some (uniformBlocks, s) =>
          match rdList rdBufferVariable s with
          | none => none
          | some (bufferVariables, s) =>
            match rdList rdInterfaceBlock s with
            | none => none
            | some (shaderStorageBlocks, s) =>
              match rdList rdShaderVariableBuffer s with
              | none => none
              | some (atomicCounterBuffers, s) =>
                match rdList rdTransformFeedbackVarying s with
                | none => none
                | some (xfbVaryings, s) =>
                  if xfbVaryings.length ≠ 0 ∧ disableXfbCaching then none
                  else
                    match rdInt s with
                    | none => none
                    | some (xfbMode, s) =>
                      match rdList rdOutputVar s with
                      | none => none
                      | some (outputVariables, s) =>
                        match rdList rdVariableLocation s with
                        | none => none
                        | some (outputLocations, s) =>
                          match rdList rdVariableLocation s with
                          | none => none
                          | some (secondaryOutputLocations, s) =>
                            match rdList rdInt s with
                            | none => none
                            | some (outputVariableTypes, s) =>
                              match rdInt s with
                              | none => none
                              | some (drawBufferTypeMask, s) =>
                                match rdInt s with
                                | none => none
                                | some (activeOutputVariables, s) =>
                                  match rdBool s with
                                  | none => none
                                  | some (yuvOutput, s) =>
                                    match rdRange s with
                                    | none => none
                                    | some (defaultRange, s) =>
                                      match rdRange s with
                                      | none => none
                                      | some (samplerRange, s) =>
                                        match rdList rdSamplerBinding s with
                                        | none => none
                                        | some (samplerBindings, s) =>
                                          match rdRange s with
                                          | none => none
                                          | some (imageRange, s) =>
                                            match rdList rdImageBinding s with
                                            | none => none
                                            | some (imageBindings, s) =>
                                              match rdRange s with
                                              | none => none
                                              | some (acRange, s) =>
                                                some
                                                  ({ execIsCompute := execIsCompute
                                                     execBlob := execBlob
                                                     computeLocalSizeX := clsX
                                                     computeLocalSizeY := clsY
                                                     computeLocalSizeZ := clsZ
                                                     numViews := numViews
                                                     earlyFragmentTestsOptimization := earlyFrag
                                                     specConstUsageBits := specConst
                                                     programInputs := programInputs
                                                     uniforms := uniforms
                                                     uniformLocations := uniformLocations
                                                     uniformBlocks := uniformBlocks
                                                     bufferVariables := bufferVariables
                                                     shaderStorageBlocks := shaderStorageBlocks
                                                     atomicCounterBuffers := atomicCounterBuffers
                                                     linkedTransformFeedbackVaryings := xfbVaryings
                                                     transformFeedbackBufferMode := xfbMode
                                                     outputVariables := outputVariables
                                                     outputLocations := outputLocations
                                                     secondaryOutputLocations := secondaryOutputLocations
                                                     outputVariableTypes := outputVariableTypes
                                                     drawBufferTypeMask := drawBufferTypeMask
                                                     activeOutputVariables := activeOutputVariables
                                                     yuvOutput := yuvOutput
                                                     defaultUniformRange := defaultRange
                                                     samplerUniformRange := samplerRange
                                                     samplerBindings :=
                                                       applySamplerBindingQualifiers uniforms
                                                         samplerRange.low samplerBindings
                                                     imageUniformRange := imageRange
                                                     imageBindings := imageBindings
                                                     atomicCounterUniformRange := acRange }, s)

/-- A sampler binding as reconstructed by the deserializer before the
binding-qualifier replay: the same metadata with all units at zero. -/
def zeroedSamplerBinding (sb : SamplerBindingS) : SamplerBindingS :=
  { sb with boundTextureUnits := List.replicate sb.boundTextureUnits.length 0 }

/-- Embedding of Program::deserialize (lines 4729-4986): reject build
identifier or context-version mismatches (and transform feedback content
when the feature flag forbids caching it), read every table back in
stream order, and finish with the postResolveLink recomputation, of which
the part affecting the claimed tables is the sampler-binding-qualifier
replay.  (The remaining recomputations of lines 4977-4984 only touch
side tables outside the claim: transform feedback strides, draw-with
flag, active sampler/image caches, and the drawID/baseVertex
locations.) -/
def deserializeProgram (expectedCommit : List Int) (ctxMajor ctxMinor : Int)
    (disableXfbCaching : Bool) (s : List StreamItem) :
    Option (ProgramTables × List StreamItem) :=
  match rdListN rdInt expectedCommit.length s with
  | none => none
  | some (commit, s) =>
    if commit ≠ expectedCommit then none
    else
      match rdInt s with
      | none => none
      | some (major, s) =>
        match rdInt s with
        | none => none
        | some (minor, s) =>
          if major ≠ ctxMajor ∨ minor ≠ ctxMinor then none
          else
            match rdBool s with
            | none => none
            | some (execIsCompute, s) =>
              match rdIntList s with
              | none => none
              | some (execBlob, s) =>
                match rdInt s with
                | none => none
                | some (clsX, s) =>
                  match rdInt s with
                  | none => none
                  | some (clsY, s) =>
                    match rdInt s with
                    | none => none
                    | some (clsZ, s) =>
                      match rdInt s with
                      | none => none
                      | some (numViews, s) =>
                        match rdBool s with
                        | none => none
                        | some (earlyFrag, s) =>
                          match rdInt s with
                          | none => none
                          | some (specConst, s) =>
                            deserializeTables disableXfbCaching
                              execIsCompute execBlob clsX clsY clsZ numViews
                              earlyFrag specConst s

/-- A small linked program used as the round-trip witness: one sampler
uniform (an array of two samplers with explicit binding 3) whose sampler
binding holds units 3 and 4, as the binding-qualifier replay of a fresh
link produces. -/
def roundtripWitnessTables : ProgramTables :=
  { execIsCompute := false
    execBlob := [7]
    computeLocalSizeX := 1
    computeLocalSizeY := 1
    computeLocalSizeZ := 1
    numViews := -1
    earlyFragmentTestsOptimization := false
    specConstUsageBits := 0
    programInputs := []
    uniforms :=
      [{ var :=
           { type := 35678, precision := 0, name := "tex", mappedName := "_utex"
             arraySizes := [2], staticUse := true, active := true, binding := 3
             structName := "", mappedStructName := "", parentArrayIndex := -1
             imageUnitFormat := 0, offset := -1, readonly := false
             writeonly := false, texelFetchStaticUse := false }
         bufferIndex := -1
         blockInfo :=
           { arrayStride := -1, isRowMajorMatrix := false, matrixStride := -1
             offset := -1, topLevelArrayStride := -1 }
         outerArraySizes := []
         activeShaders := { vertex := false, fragment := true
                            geometry := false, compute := false } }]
    uniformLocations := [{ arrayIndex := 0, index := 0, ignored := false }]
    uniformBlocks := []
    bufferVariables := []
    shaderStorageBlocks := []
    atomicCounterBuffers := []
    linkedTransformFeedbackVaryings := []
    transformFeedbackBufferMode := 35981
    outputVariables := []
    outputLocations := []
    secondaryOutputLocations := []
    outputVariableTypes := []
    drawBufferTypeMask := 0
    activeOutputVariables := 0
    yuvOutput := false
    defaultUniformRange := ⟨0, 0⟩
    samplerUniformRange := ⟨0, 1⟩
    samplerBindings :=
      [{ textureType := 1, samplerType := 35678, format := 0
         boundTextureUnits := [3, 4] }]
    imageUniformRange := ⟨0, 0⟩
    imageBindings := []
    atomicCounterUniformRange := ⟨0, 0⟩ }

/-! # Translator data model (TranslatorVulkan.cpp)

GLSL float scalars and vec2 values computed by the injected emulation
code are embedded as rationals: every constant appearing in the relevant
passes (0.5, 1, -1, 0.0001 and the scenario inputs) is exactly
representable, so rational arithmetic agrees with the float arithmetic of
the generated shader on the inputs used by the claims. -/

/-- Embedding of a GLSL vec2 value. -/
structure Vec2Q where
  x : ℚ
  y : ℚ
deriving DecidableEq, Repr

/-- Componentwise addition (EOpAdd on vec2). -/
def Vec2Q.add (a b : Vec2Q) : Vec2Q := ⟨a.x + b.x, a.y + b.y⟩

/-- Componentwise subtraction (EOpSub on vec2). -/
def Vec2Q.sub (a b : Vec2Q) : Vec2Q := ⟨a.x - b.x, a.y - b.y⟩

/-- Componentwise multiplication (EOpMul on vec2). -/
def Vec2Q.mul (a b : Vec2Q) : Vec2Q := ⟨a.x * b.x, a.y * b.y⟩

/-- Componentwise division (EOpDiv on vec2). -/
def Vec2Q.div (a b : Vec2Q) : Vec2Q := ⟨a.x / b.x, a.y / b.y⟩

/-- The yx swizzle. -/
def Vec2Q.yx (a : Vec2Q) : Vec2Q := ⟨a.y, a.x⟩

/-- Componentwise absolute value (EOpAbs on vec2). -/
def Vec2Q.absv (a : Vec2Q) : Vec2Q := ⟨|a.x|, |a.y|⟩

/-- Embedding of a GLSL mat2 value, column major: col0 = (m00, m01),
col1 = (m10, m11). -/
structure Mat2Q where
  m00 : ℚ
  m01 : ℚ
  m10 : ℚ
  m11 : ℚ
deriving DecidableEq, Repr

/-- EOpMatrixTimesVector on a mat2 and a vec2. -/
def Mat2Q.timesVec (m : Mat2Q) (v : Vec2Q) : Vec2Q :=
  ⟨m.m00 * v.x + m.m10 * v.y, m.m01 * v.x + m.m11 * v.y⟩

/-! # C6: line-rasterization emulation, fragment side
(AddBresenhamEmulationFS, TranslatorVulkan.cpp lines 582-693)

The injected code computes i = abs(p - f + (d/d_) * (f_ - p_)) with
p_ = p.yx, d_ = d.yx, f_ = f.yx, and executes a discard guarded by
if (i.x > (0.5 + e) && i.y > (0.5 + e)); the whole block is itself
guarded by the line-raster-emulation specialization constant. -/

/-- Embedding of kEpsilon = 0.0001f (line 648). -/
def kEpsilon : ℚ := 1 / 10000

/-- Embedding of kThreshold = 0.5 + kEpsilon (line 649). -/
def kThreshold : ℚ := 1 / 2 + kEpsilon

/-- Embedding of the value vec2 i = abs(p - f + (d/d_) * (f_ - p_))
(lines 636-644). -/
def bresenhamI (p d f : Vec2Q) : Vec2Q :=
  let p_yx := p.yx
  let d_yx := d.yx
  let f_yx := f.yx
  ((p.sub f).add ((d.div d_yx).mul (f_yx.sub p_yx))).absv

/-- Embedding of the discard condition
if (i.x > (0.5 + e) && i.y > (0.5 + e)) discard (lines 652-663). -/
def bresenhamDiscard (p d f : Vec2Q) : Bool :=
  decide ((bresenhamI p d f).x > kThreshold) &&
  decide ((bresenhamI p d f).y > kThreshold)

/-- Whether the injected fragment-side emulation code keeps the fragment,
given the line-raster-emulation specialization condition: inside the
specialization guard the fragment survives exactly when the discard
condition is false; with the guard off the block does not run. -/
def bresenhamFragmentKeep (emulationEnabled : Bool) (p d f : Vec2Q) : Bool :=
  if emulationEnabled then !(bresenhamDiscard p d f) else true

/-- Predicate written from the claim: the diamond-exit test
|p - f + (d/d_) * (f_ - p_)| <= 0.5 + e passes on both axes. -/
def diamondTestBothAxes (p d f : Vec2Q) : Bool :=
  decide ((bresenhamI p d f).x ≤ kThreshold) &&
  decide ((bresenhamI p d f).y ≤ kThreshold)

/-! # C7: vertex-stage pass order for depth correction and pre-rotation
(TranslatorVulkan.cpp lines 279-341 and 1032-1085)

AppendVertexShaderDepthCorrectionToMain builds the assignment
gl_Position.z = (gl_Position.z + gl_Position.w) * 0.5 and hands it to
RunAtTheEndOfShader; AppendPreRotation does the same with
gl_Position.xy = gl_Position.xy * preRotation.  In the vertex case of
translateImpl the calls run in this order: AddBresenhamEmulationVS (when
enabled; appends its guarded block at the end of main),
transformDepthBeforeCorrection (a hook that is a no-op for this
translator), AppendVertexShaderDepthCorrectionToMain, and then
AppendPreRotation (when SH_ADD_PRE_ROTATION is set). -/

/-- Statements of the vertex shader main body that the final translation
passes append; pre-existing body statements are opaque. -/
inductive VkStmt where
  | bresenhamVS
  | depthCorrection
  | preRotation
  | other (n : Nat)
deriving DecidableEq, Repr

/-- Modelled from the spec: RunAtTheEndOfShader appends the given
statement at the end of main. -/
def runAtTheEndOfShader (body : List VkStmt) (s : VkStmt) : List VkStmt :=
  body ++ [s]

/-- Embedding of AppendVertexShaderDepthCorrectionToMain (lines 279-308):
appends the depth correction assignment at the end of main. -/
def appendVertexShaderDepthCorrectionToMain (body : List VkStmt) : List VkStmt :=
  runAtTheEndOfShader body VkStmt.depthCorrection

/-- Embedding of AppendPreRotation (lines 317-341): appends the
pre-rotation assignment at the end of main. -/
def appendPreRotation (body : List VkStmt) : List VkStmt :=
  runAtTheEndOfShader body VkStmt.preRotation

/-- Embedding of AddBresenhamEmulationVS (lines 377-447): appends the
specialization-guarded emulation block at the end of main. -/
def addBresenhamEmulationVS (body : List VkStmt) : List VkStmt :=
  body ++ [VkStmt.bresenhamVS]

/-- Embedding of the vertex case of TranslatorVulkan::translateImpl
(lines 1032-1085) restricted to the passes that modify the end of the
main body, in their source order. -/
def translateImplVertexTail (addBresenham addPreRotation : Bool)
    (body : List VkStmt) : List VkStmt :=
  let body := if addBresenham then addBresenhamEmulationVS body else body
  let body := appendVertexShaderDepthCorrectionToMain body
  if addPreRotation then appendPreRotation body else body

/-! # C8: builtin coordinate correction (RotateAndFlipBuiltinVariable,
TranslatorVulkan.cpp lines 181-245)

The pass declares a replacement variable, replaces every use of the
builtin with it, and inserts two statements at the beginning of the
insert sequence (the top of main): first the initialization of the
replacement from the original builtin, then the assignment of the
corrected xy value ((builtin.xy * rotation - pivot) * flip) + pivot,
with the rotation factor omitted when no pre-rotation is requested. -/

/-- Expressions over the original builtin's xy value, as built by the
pass. -/
inductive CorrExpr where
  | builtinXY
  | constVec (v : Vec2Q)
  | add (a b : CorrExpr)
  | sub (a b : CorrExpr)
  | mul (a b : CorrExpr)
  | matTimesVec (m : Mat2Q) (v : CorrExpr)
deriving DecidableEq, Repr

/-- Value of a correction expression given the builtin's xy value. -/
def CorrExpr.eval (builtin : Vec2Q) : CorrExpr → Vec2Q
  | .builtinXY => builtin
  | .constVec v => v
  | .add a b => (a.eval builtin).add (b.eval builtin)
  | .sub a b => (a.eval builtin).sub (b.eval builtin)
  | .mul a b => (a.eval builtin).mul (b.eval builtin)
  | .matTimesVec m v => m.timesVec (v.eval builtin)

/-- Embedding of the corrected-value expression built at lines 212-227:
rotatedXY = fragRotation * builtin.xy when a rotation is supplied and
builtin.xy otherwise; then ((rotatedXY - pivot) * flipXY) + pivot. -/
def rotateAndFlipCorrectionExpr (flipXY pivot : Vec2Q)
    (fragRotation : Option Mat2Q) : CorrExpr :=
  let builtinXYRef := CorrExpr.builtinXY
  let rotatedXY := match fragRotation with
    | some m => CorrExpr.matTimesVec m builtinXYRef
    | none => builtinXYRef
  let removePivot := CorrExpr.sub rotatedXY (.constVec pivot)
  let inverseXY := CorrExpr.mul removePivot (.constVec flipXY)
  CorrExpr.add inverseXY (.constVec pivot)

/-- Statements handled by the coordinate-correction pass. -/
inductive CorrStmt where
  | initReplacement
  | assignCorrected (e : CorrExpr)
  | other (n : Nat)
deriving DecidableEq, Repr

/-- Embedding of the statement insertion at lines 229-242: the assignment
of the corrected xy value is inserted at the beginning of the insert
sequence, then the initialization of the replacement variable is inserted
before it. -/
def rotateAndFlipInsert (flipXY pivot : Vec2Q) (fragRotation : Option Mat2Q)
    (insertSequence : List CorrStmt) : List CorrStmt :=
  let afterAssign :=
    CorrStmt.assignCorrected (rotateAndFlipCorrectionExpr flipXY pivot fragRotation) ::
      insertSequence
  CorrStmt.initReplacement :: afterAssign

/-- Modelled from the spec: ReplaceVariable replaces every use of the
original builtin with the replacement variable; uses are embedded as the
list of variable names referenced by the tree. -/
def replaceVariable (uses : List String) (builtin replacement : String) :
    List String :=
  uses.map (fun v => if v = builtin then replacement else v)

end Angle

namespace Angle

/-! # Theorems -/

/-- Elements selected by takeWhile satisfy the predicate, stated on the
underlying list: if an index is below the takeWhile length, the list
element at that index satisfies the predicate. -/
theorem sat_of_lt_takeWhile_length {α : Type} (p : α → Bool) :
    ∀ (l : List α) (j : Nat) (hj : j < (l.takeWhile p).length) (hl : j < l.length),
      p (l.get ⟨j, hl⟩) = true := by
  intro l
  induction l with
  | nil => intro j hj hl; simp at hj
  | cons a t ih =>
    intro j hj hl
    by_cases hpa : p a = true
    · cases j with
      | zero => simpa using hpa
      | succ k =>
        simp [List.takeWhile, hpa] at hj
        exact ih k (by omega) (by simpa using hl)
    · simp [List.takeWhile, Bool.eq_false_iff.mpr hpa] at hj

/-- A block of indexes counted from the back of a list by a takeWhile scan
on a suffix of the reversed list satisfies the scanned predicate. -/
theorem sat_of_rev_block {α : Type} (p : α → Bool) (l : List α) (o i : Nat)
    (hi : i < l.length)
    (hlow : l.length - o - ((l.reverse.drop o).takeWhile p).length ≤ i)
    (hhigh : i < l.length - o) :
    p (l.get ⟨i, hi⟩) = true := by
  have hj2 : l.length - 1 - i - o < (l.reverse.drop o).length := by
    simp only [List.length_drop, List.length_reverse]; omega
  have hjt : l.length - 1 - i - o < ((l.reverse.drop o).takeWhile p).length := by
    omega
  have hsat := sat_of_lt_takeWhile_length p (l.reverse.drop o)
    (l.length - 1 - i - o) hjt hj2
  have hjrev : o + (l.length - 1 - i - o) < l.reverse.length := by
    simp only [List.length_reverse]; omega
  have hjrev2 : l.length - 1 - i < l.reverse.length := by
    simp only [List.length_reverse]; omega
  have e1 : (l.reverse.drop o).get ⟨l.length - 1 - i - o, hj2⟩ =
      l.reverse.get ⟨o + (l.length - 1 - i - o), hjrev⟩ := by
    simp only [List.get_eq_getElem, List.getElem_drop]
  have e2 : l.reverse.get ⟨o + (l.length - 1 - i - o), hjrev⟩ =
      l.reverse.get ⟨l.length - 1 - i, hjrev2⟩ := by
    congr 1
    apply Fin.ext
    simp only
    omega
  have e3 : l.reverse.get ⟨l.length - 1 - i, hjrev2⟩ = l.get ⟨i, hi⟩ := by
    rw [List.get_reverse' l ⟨l.length - 1 - i, hjrev2⟩ (by omega)]
    congr 1
    apply Fin.ext
    simp only
    omega
  rw [e1, e2, e3] at hsat
  exact hsat

/-- C1: after the range scan of linkSamplerAndImageBindings, the flattened
uniform list is partitioned into four contiguous index ranges ordered from
the tail: defaultUniformRange = [0, samplerRange.low), samplerRange.high =
imageRange.low, imageRange.high = atomicCounterRange.low, and
atomicCounterRange.high = the size of the uniform list; moreover every
index in the atomic counter (resp. image, sampler) range holds an atomic
counter (resp. image, sampler) uniform. -/
theorem uniformRanges_partition (uniforms : List UniformKind) :
    (linkSamplerAndImageRanges uniforms).defaultUniformRange =
      ⟨0, (linkSamplerAndImageRanges uniforms).samplerUniformRange.low⟩ ∧
    (linkSamplerAndImageRanges uniforms).samplerUniformRange.high =
      (linkSamplerAndImageRanges uniforms).imageUniformRange.low ∧
    (linkSamplerAndImageRanges uniforms).imageUniformRange.high =
      (linkSamplerAndImageRanges uniforms).atomicCounterUniformRange.low ∧
    (linkSamplerAndImageRanges uniforms).atomicCounterUniformRange.high =
      uniforms.length ∧
    (∀ (i : Nat) (hi : i < uniforms.length),
      (linkSamplerAndImageRanges uniforms).atomicCounterUniformRange.low ≤ i →
      (uniforms.get ⟨i, hi⟩).isAtomicCounter = true) ∧
    (∀ (i : Nat) (hi : i < uniforms.length),
      (linkSamplerAndImageRanges uniforms).imageUniformRange.low ≤ i →
      i < (linkSamplerAndImageRanges uniforms).imageUniformRange.high →
      (uniforms.get ⟨i, hi⟩).isImage = true) ∧
    (∀ (i : Nat) (hi : i < uniforms.length),
      (linkSamplerAndImageRanges uniforms).samplerUniformRange.low ≤ i →
      i < (linkSamplerAndImageRanges uniforms).samplerUniformRange.high →
      (uniforms.get ⟨i, hi⟩).isSampler = true) := by
  refine ⟨rfl, rfl, rfl, rfl, ?_, ?_, ?_⟩
  · intro i hi hlow
    exact sat_of_rev_block UniformKind.isAtomicCounter uniforms 0 i hi
      (by simpa [linkSamplerAndImageRanges] using hlow) (by omega)
  · intro i hi hlow hhigh
    exact sat_of_rev_block UniformKind.isImage uniforms
      ((uniforms.reverse.takeWhile UniformKind.isAtomicCounter).length) i hi
      (by
        simp only [linkSamplerAndImageRanges] at hlow
        omega)
      (by
        simp only [linkSamplerAndImageRanges] at hhigh
        omega)
  · intro i hi hlow hhigh
    simp only [linkSamplerAndImageRanges] at hlow hhigh
    rw [List.drop_drop] at hlow
    exact sat_of_rev_block UniformKind.isSampler uniforms
      ((uniforms.reverse.takeWhile UniformKind.isAtomicCounter).length +
        ((uniforms.reverse.drop
          (uniforms.reverse.takeWhile UniformKind.isAtomicCounter).length).takeWhile
            UniformKind.isImage).length) i hi (by omega) (by omega)

/-- Search loop of linkAtomicCounterBuffers agrees with the first-match
position description, for every starting offset. -/
theorem findAndAppendMember_eq (binding : Int) (index : Nat) :
    ∀ (buffers : List AtomicCounterBuffer) (pos : Nat),
      findAndAppendMember buffers binding index pos =
        match firstMatchingBuffer buffers binding with
        | some k =>
          some (buffers.take k ++
            (match buffers.get? k with
             | some b => [{ b with memberIndexes := b.memberIndexes ++ [index] }]
             | none => []) ++
            buffers.drop (k + 1), pos + k)
        | none => none := by
  intro buffers
  induction buffers with
  | nil => intro pos; rfl
  | cons b rest ih =>
    intro pos
    by_cases hb : b.binding = binding
    · simp [findAndAppendMember, firstMatchingBuffer, hb]
    · simp only [findAndAppendMember, firstMatchingBuffer, hb, if_false, ih (pos + 1)]
      cases hfm : firstMatchingBuffer rest binding with
      | none => simp [hfm]
      | some k =>
        simp [hfm, List.take_succ_cons, List.drop_succ_cons, List.get?_cons_succ]
        omega

/-- C9: each atomic-counter uniform processed during linking is merged
into the first existing AtomicCounterBuffer record with the same binding
value (appending its index to that record's member indexes and pointing
the uniform's bufferIndex at that record), and otherwise creates a new
buffer record at the next free buffer index; in particular two uniforms
with binding 2 followed by one with binding 5 produce exactly two buffer
records, the first with binding 2 and member indexes 0 and 1, the second
with binding 5 and member index 2, with buffer indexes 0, 0, 1 assigned. -/
theorem linkAtomicCounterBuffers_grouping :
    (∀ (buffers : List AtomicCounterBuffer) (index : Nat) (binding : Int),
      linkAtomicCounterBuffersStep buffers index binding =
        linkAtomicCounterBuffersStepSpec buffers index binding) ∧
    linkAtomicCounterBuffers [(0, 2), (1, 2), (2, 5)] =
      ([⟨2, [0, 1]⟩, ⟨5, [2]⟩], [0, 0, 1]) := by
  constructor
  · intro buffers index binding
    unfold linkAtomicCounterBuffersStep linkAtomicCounterBuffersStepSpec
    rw [findAndAppendMember_eq]
    cases hfm : firstMatchingBuffer buffers binding with
    | none => rfl
    | some k => simp
  · rfl

/-- C10: whether a fragment output goes to the secondary (index 1)
output-location table is decided by precedence: a shader-declared index
qualifier, when present (not -1), is used and the API-bound index is
ignored; otherwise the API-bound index is used when present; otherwise the
output defaults to index 0 (primary). -/
theorem isOutputSecondaryForLink_precedence (shaderIndex apiIndex : Int) :
    (shaderIndex ≠ -1 →
      isOutputSecondaryForLink shaderIndex apiIndex = (shaderIndex == 1)) ∧
    (shaderIndex = -1 → apiIndex ≠ -1 →
      isOutputSecondaryForLink shaderIndex apiIndex = (apiIndex == 1)) ∧
    (shaderIndex = -1 → apiIndex = -1 →
      isOutputSecondaryForLink shaderIndex apiIndex = false) := by
  refine ⟨?_, ?_, ?_⟩ <;> intros <;> simp_all [isOutputSecondaryForLink]

/-- Witness for C10 at a concrete input: a shader-declared index 0
overrides an API-bound index 1, so the output stays primary. -/
theorem isOutputSecondaryForLink_precedence_witness :
    isOutputSecondaryForLink 0 1 = ((0 : Int) == 1) :=
  (isOutputSecondaryForLink_precedence 0 1).1 (by decide)

/-- Counterexample to C6 as stated: at p = (0,0), d = (1,2), f = (0,1)
the diamond-exit quantity is i = (1/2, 1), so the test fails on the y
axis, yet the injected code keeps the fragment (it only discards when the
test fails on both axes). -/
theorem bresenhamKeep_claim_counterexample :
    bresenhamFragmentKeep true ⟨0, 0⟩ ⟨1, 2⟩ ⟨0, 1⟩ = true ∧
    diamondTestBothAxes ⟨0, 0⟩ ⟨1, 2⟩ ⟨0, 1⟩ = false := by
  have hI : bresenhamI ⟨0, 0⟩ ⟨1, 2⟩ ⟨0, 1⟩ = ⟨1 / 2, 1⟩ := by
    simp only [bresenhamI, Vec2Q.yx, Vec2Q.sub, Vec2Q.add, Vec2Q.div,
      Vec2Q.mul, Vec2Q.absv, Vec2Q.mk.injEq]
    constructor
    · rw [show (0 : ℚ) - 0 + 1 / 2 * (1 - 0) = 1 / 2 by norm_num]
      rw [abs_of_nonneg (by norm_num : (0 : ℚ) ≤ 1 / 2)]
    · rw [show (0 : ℚ) - 1 + 2 / 1 * (0 - 0) = -1 by norm_num]
      rw [abs_neg, abs_one]
  have hy : ¬ ((1 : ℚ) ≤ kThreshold) := by norm_num [kThreshold, kEpsilon]
  constructor
  · simp [bresenhamFragmentKeep, bresenhamDiscard, hI]
    left
    norm_num [kThreshold, kEpsilon]
  · simp [diamondTestBothAxes, hI, hy]

/-- C6 (amended): under the emulation specialization condition the
injected code keeps the fragment if and only if the diamond-exit test
|p - f + (d/d_) * (f_ - p_)| <= 0.5 + e with e = 1e-4 passes on at least
one axis, discarding only fragments for which it fails on both axes; with
the specialization condition off the fragment is always kept. -/
theorem bresenhamFragmentKeep_someAxis (p d f : Vec2Q) :
    bresenhamFragmentKeep true p d f =
      (decide ((bresenhamI p d f).x ≤ kThreshold) ||
        decide ((bresenhamI p d f).y ≤ kThreshold)) ∧
    bresenhamFragmentKeep false p d f = true := by
  constructor
  · simp only [bresenhamFragmentKeep, bresenhamDiscard, if_true,
      Bool.not_and, ← decide_not, not_lt]
  · rfl

/-- Counterexample to C7 as stated: with the line-raster and pre-rotation
options enabled and an empty original main body, translation appends the
depth correction statement before the pre-rotation statement, so the
depth correction does not run after the pre-rotation pass. -/
theorem depthCorrection_before_preRotation :
    translateImplVertexTail true true [] =
      [VkStmt.bresenhamVS, VkStmt.depthCorrection, VkStmt.preRotation] ∧
    List.indexOf VkStmt.depthCorrection (translateImplVertexTail true true []) <
      List.indexOf VkStmt.preRotation (translateImplVertexTail true true []) := by
  decide

/-- C7 (amended): in every vertex-stage translation the depth range
correction pass appends gl_Position.z = (gl_Position.z + gl_Position.w)
* 0.5 at the end of main, and it runs before the pre-rotation pass: when
pre-rotation is enabled, the pre-rotation statement is appended after the
depth correction statement. -/
theorem translateImplVertexTail_order (addBresenham addPreRot : Bool)
    (body : List VkStmt) :
    translateImplVertexTail addBresenham addPreRot body =
      (if addBresenham then body ++ [VkStmt.bresenhamVS] else body) ++
        (VkStmt.depthCorrection ::
          (if addPreRot then [VkStmt.preRotation] else [])) := by
  cases addBresenham <;> cases addPreRot <;>
    simp [translateImplVertexTail, appendPreRotation,
      appendVertexShaderDepthCorrectionToMain, addBresenhamEmulationVS,
      runAtTheEndOfShader]

/-- The original builtin name survives a replacement exactly when it was
referenced and the replacement name equals it. -/
theorem replaceVariable_mem (b r : String) (uses : List String) :
    b ∈ replaceVariable uses b r ↔ (b ∈ uses ∧ r = b) := by
  simp only [replaceVariable, List.mem_map]
  constructor
  · rintro ⟨v, hv, he⟩
    by_cases h : v = b
    · rw [if_pos h] at he
      exact ⟨h ▸ hv, he⟩
    · rw [if_neg h] at he
      exact absurd he h
  · rintro ⟨hb, hr⟩
    exact ⟨b, hb, by simp [hr]⟩

/-- Bit i of the contiguous run mask of length n shifted to j is set
exactly on the registers of the run [j, j + n). -/
theorem testBit_runMask (n j i : Nat) :
    (((1 <<< n) - 1) <<< j).testBit i = decide (j ≤ i ∧ i < j + n) := by
  rw [Nat.testBit_shiftLeft, Nat.one_shiftLeft, Nat.testBit_two_pow_sub_one]
  by_cases h1 : j ≤ i
  · have hge : (decide (i ≥ j)) = true := by simpa using h1
    rw [hge, Bool.true_and, decide_eq_decide]
    omega
  · have hge : (decide (i ≥ j)) = false := by simpa using h1
    rw [hge, Bool.false_and, decide_eq_false (fun hh => h1 hh.1)]

/-- A bitwise and is zero exactly when no bit is set on both sides. -/
theorem land_eq_zero_iff (a b : Nat) :
    a &&& b = 0 ↔ ∀ i, a.testBit i = false ∨ b.testBit i = false := by
  constructor
  · intro h i
    have h2 : (a &&& b).testBit i = Nat.testBit 0 i := by rw [h]
    rw [Nat.testBit_land, Nat.zero_testBit] at h2
    cases ha : a.testBit i <;> cases hb : b.testBit i <;> simp_all
  · intro h
    apply Nat.eq_of_testBit_eq
    intro i
    rw [Nat.testBit_land, Nat.zero_testBit]
    rcases h i with h2 | h2 <;> simp [h2]

/-- The first-fit collision check at a candidate index succeeds exactly
when the whole run is free there. -/
theorem checkFree_iff (bits n j : Nat) :
    bits &&& (((1 <<< n) - 1) <<< j) = 0 ↔ RangeFree bits (j, n) := by
  rw [land_eq_zero_iff]
  constructor
  · intro h r hr
    rcases h r with h2 | h2
    · exact h2
    · rw [testBit_runMask] at h2
      rcases hr with ⟨hr1, hr2⟩
      simp only [decide_eq_false_iff_not, not_and, not_lt] at h2
      omega
  · intro h i
    by_cases hin : j ≤ i ∧ i < j + n
    · exact Or.inl (h i hin)
    · right
      rw [testBit_runMask]
      simpa using hin

/-- First-fit search loop: a successful search starting at index i finds
the least candidate at or after i whose run is free, and sets exactly
that run's bits. -/
theorem afbGo_some_spec (bits n : Nat) :
    ∀ (fuel i idx newBits : Nat),
      allocateFirstFreeBitsGo bits ((1 <<< n) - 1) i fuel = some (idx, newBits) →
      i ≤ idx ∧ idx < i + fuel ∧ RangeFree bits (idx, n) ∧
      (∀ j, i ≤ j → j < idx → ¬ RangeFree bits (j, n)) ∧
      (∀ r, newBits.testBit r = (bits.testBit r || decide (idx ≤ r ∧ r < idx + n))) := by
  intro fuel
  induction fuel with
  | zero =>
    intro i idx newBits h
    simp [allocateFirstFreeBitsGo] at h
  | succ fuel ih =>
    intro i idx newBits h
    rw [allocateFirstFreeBitsGo] at h
    by_cases hc : bits &&& (((1 <<< n) - 1) <<< i) = 0
    · rw [if_pos hc] at h
      obtain ⟨hidx, hnew⟩ : idx = i ∧ newBits = bits ||| (((1 <<< n) - 1) <<< i) := by
        cases h
        exact ⟨rfl, rfl⟩
      refine ⟨by omega, by omega, ?_, ?_, ?_⟩
      · rw [hidx]
        exact (checkFree_iff bits n i).mp hc
      · intro j hj1 hj2
        omega
      · intro r
        rw [hnew, hidx, Nat.testBit_lor, testBit_runMask]
    · rw [if_neg hc] at h
      obtain ⟨h1, h2, h3, h4, h5⟩ := ih (i + 1) idx newBits h
      refine ⟨by omega, by omega, h3, ?_, h5⟩
      intro j hj1 hj2
      rcases Nat.eq_or_lt_of_le hj1 with hj | hj
      · intro hfree
        have hfi : RangeFree bits (i, n) := by
          rw [hj]
          exact hfree
        exact hc ((checkFree_iff bits n i).mpr hfi)
      · exact h4 j (by omega) hj2

/-- First-fit allocator: a successful allocation returns the least index
whose run of allocationSize registers is free, and marks exactly that
run. -/
theorem allocateFirstFreeBits_spec (bits n size idx newBits : Nat)
    (h : allocateFirstFreeBits bits n size = some (idx, newBits)) :
    RangeFree bits (idx, n) ∧ (∀ j, j < idx → ¬ RangeFree bits (j, n)) ∧
    (∀ r, newBits.testBit r = (bits.testBit r ||
      decide (idx ≤ r ∧ r < idx + n))) := by
  obtain ⟨h1, h2, h3, h4, h5⟩ := afbGo_some_spec bits n _ 0 idx newBits h
  exact ⟨h3, fun j hj => h4 j (Nat.zero_le j) hj, h5⟩

/-- Register loop: on success the bitmask only grows, afterwards covers
the walked run, and surviving map entries persist. -/
theorem placeRegs_ok_bits (strict : Bool) (idx : Nat) (names : Nat → String)
    (name : String) :
    ∀ (count start : Nat) (st st' : AttribPassState),
      placeRegs strict idx names name count start st = .ok st' →
      (∀ r, st.usedLocations.testBit r = true →
        st'.usedLocations.testBit r = true) ∧
      (∀ r, start ≤ r → r < start + count →
        st'.usedLocations.testBit r = true) ∧
      (∀ r, (st.usedAttribMap r).isSome = true →
        (st'.usedAttribMap r).isSome = true) := by
  intro count
  induction count with
  | zero =>
    intro start st st' h
    simp only [placeRegs] at h
    cases h
    exact ⟨fun r h2 => h2, fun r h1 h2 => absurd h2 (by omega), fun r h2 => h2⟩
  | succ count ih =>
    intro start st st' h
    simp only [placeRegs, placeOneReg] at h
    cases hm : st.usedAttribMap start with
    | some otherIdx =>
      rw [hm] at h
      cases strict with
      | true => simp at h
      | false =>
        simp only at h
        obtain ⟨ih1, ih2, ih3⟩ := ih (start + 1)
          { st with usedLocations := st.usedLocations ||| (1 <<< start) } st' h
        refine ⟨?_, ?_, ?_⟩
        · intro r h2
          exact ih1 r (by simp [Nat.testBit_lor, h2])
        · intro r h1 h2
          rcases Nat.eq_or_lt_of_le h1 with h3 | h3
          · apply ih1 r
            simp [Nat.testBit_lor, ← h3, Nat.one_shiftLeft, Nat.testBit_two_pow]
          · exact ih2 r (by omega) (by omega)
        · intro r h2
          exact ih3 r h2
    | none =>
      rw [hm] at h
      simp only at h
      obtain ⟨ih1, ih2, ih3⟩ := ih (start + 1)
        { usedAttribMap := Function.update st.usedAttribMap start (some idx)
          usedLocations := st.usedLocations ||| (1 <<< start) } st' h
      refine ⟨?_, ?_, ?_⟩
      · intro r h2
        exact ih1 r (by simp [Nat.testBit_lor, h2])
      · intro r h1 h2
        rcases Nat.eq_or_lt_of_le h1 with h3 | h3
        · apply ih1 r
          simp [Nat.testBit_lor, ← h3, Nat.one_shiftLeft, Nat.testBit_two_pow]
        · exact ih2 r (by omega) (by omega)
      · intro r h2
        apply ih3 r
        by_cases hr : r = start
        · subst hr
          simp [Function.update_same]
        · simpa [Function.update_noteq hr] using h2

/-- Two ranges overlap exactly when they share a register. -/
theorem rangesOverlap_iff (x y : Nat × Nat) :
    rangesOverlap x y ↔ ∃ r, InRange x r ∧ InRange y r := by
  constructor
  · intro h
    refine ⟨max x.1 y.1, ⟨?_, ?_⟩, ⟨?_, ?_⟩⟩ <;>
      simp only [rangesOverlap, lt_min_iff, max_lt_iff] at h ⊢ <;> omega
  · rintro ⟨r, ⟨hx1, hx2⟩, ⟨hy1, hy2⟩⟩
    simp only [rangesOverlap, lt_min_iff, max_lt_iff, InRange] at *
    omega

/-- Binding application preserves the name and register count and yields
the effective location. -/
theorem applyBinding_fields (bindings : String → Option Nat) (a : ShAttribute) :
    (applyBinding bindings a).location = effectiveLocation bindings a ∧
    variableRegisterCount (applyBinding bindings a) = variableRegisterCount a ∧
    (applyBinding bindings a).name = a.name ∧
    (applyBinding bindings a).active = a.active := by
  cases hl : a.location with
  | some l => simp [applyBinding, effectiveLocation, hl]
  | none =>
    cases hb : bindings a.name with
    | some b => simp [applyBinding, effectiveLocation, variableRegisterCount, hl, hb]
    | none => simp [applyBinding, effectiveLocation, hl, hb]

/-- The indexed attribute list projects back to the attribute list. -/
theorem withIndices_map {α β : Type} (g : α → β) :
    ∀ (start : Nat) (l : List α),
      (withIndices start l).map (fun p => g p.2) = l.map g := by
  intro start l
  induction l generalizing start with
  | nil => rfl
  | cons a rest ih => simp [withIndices, ih]

/-- Members of the indexed attribute list are members of the list. -/
theorem withIndices_mem {α : Type} :
    ∀ (start : Nat) (l : List α) (p : Nat × α),
      p ∈ withIndices start l → p.2 ∈ l := by
  intro start l
  induction l generalizing start with
  | nil => intro p h; simp [withIndices] at h
  | cons a rest ih =>
    intro p h
    simp only [withIndices, List.mem_cons] at h
    rcases h with h | h
    · simp [h]
    · exact List.mem_cons_of_mem a (ih (start + 1) p h)

/-- Ranges of the bound attribute list are the effective explicit
ranges. -/
theorem attrRanges_applyBinding (bindings : String → Option Nat) :
    ∀ attrs : List ShAttribute,
      attrRanges (attrs.map (applyBinding bindings)) =
        explicitRanges bindings attrs := by
  intro attrs
  induction attrs with
  | nil => rfl
  | cons a rest ih =>
    obtain ⟨h1, h2, h3, h4⟩ := applyBinding_fields bindings a
    simp only [attrRanges, explicitRanges, List.map_cons, List.filterMap_cons] at *
    rw [h1, h2]
    cases effectiveLocation bindings a with
    | none => exact ih
    | some l => rw [ih]

/-- Register loop under strict aliasing: success means the walked run was
entirely unclaimed on entry, and is claimed on exit. -/
theorem placeRegs_strict_ok (idx : Nat) (names : Nat → String) (name : String) :
    ∀ (count start : Nat) (st st' : AttribPassState),
      placeRegs true idx names name count start st = .ok st' →
      (∀ r, start ≤ r → r < start + count → st.usedAttribMap r = none) ∧
      (∀ r, start ≤ r → r < start + count →
        (st'.usedAttribMap r).isSome = true) := by
  intro count
  induction count with
  | zero =>
    intro start st st' h
    exact ⟨fun r h1 h2 => absurd h2 (by omega), fun r h1 h2 => absurd h2 (by omega)⟩
  | succ count ih =>
    intro start st st' h
    simp only [placeRegs, placeOneReg] at h
    cases hm : st.usedAttribMap start with
    | some otherIdx =>
      rw [hm] at h
      simp at h
    | none =>
      rw [hm] at h
      simp only at h
      obtain ⟨ih1, ih2⟩ := ih (start + 1)
        { usedAttribMap := Function.update st.usedAttribMap start (some idx)
          usedLocations := st.usedLocations ||| (1 <<< start) } st' h
      obtain ⟨-, -, hmono⟩ := placeRegs_ok_bits true idx names name count (start + 1)
        { usedAttribMap := Function.update st.usedAttribMap start (some idx)
          usedLocations := st.usedLocations ||| (1 <<< start) } st' h
      constructor
      · intro r h1 h2
        rcases Nat.eq_or_lt_of_le h1 with h3 | h3
        · rw [← h3]
          exact hm
        · have := ih1 r (by omega) (by omega)
          dsimp only at this
          rwa [Function.update_noteq (by omega : r ≠ start)] at this
      · intro r h1 h2
        rcases Nat.eq_or_lt_of_le h1 with h3 | h3
        · apply hmono
          rw [← h3]
          simp [Function.update_same]
        · exact ih2 r (by omega) (by omega)

/-- The register loop only reports aliasing diagnostics. -/
theorem placeRegs_error_shape (strict : Bool) (idx : Nat) (names : Nat → String)
    (name : String) :
    ∀ (count start : Nat) (st : AttribPassState) (e : LinkAttrError),
      placeRegs strict idx names name count start st = .error e →
      ∃ n1 n2 r, e = .aliasesAttribute n1 n2 r := by
  intro count
  induction count with
  | zero =>
    intro start st e h
    simp [placeRegs] at h
  | succ count ih =>
    intro start st e h
    simp only [placeRegs, placeOneReg] at h
    cases hm : st.usedAttribMap start with
    | some otherIdx =>
      rw [hm] at h
      cases strict with
      | true =>
        simp only [if_true] at h
        cases h
        exact ⟨name, names otherIdx, start, rfl⟩
      | false =>
        simp only [if_false] at h
        exact ih (start + 1) _ e h
    | none =>
      rw [hm] at h
      simp only at h
      exact ih (start + 1) _ e h

/-- First pass, success: the output is the input with API bindings
applied, the bitmask only grows and afterwards covers every explicit
range, and map entries persist. -/
theorem pass1_ok_spec (strict : Bool) (maxA : Nat)
    (bindings : String → Option Nat) (names : Nat → String) :
    ∀ (l : List (Nat × ShAttribute)) (st : AttribPassState)
      (out : List (Nat × ShAttribute)) (st' : AttribPassState),
      linkAttributesPass1 strict maxA bindings names l st = .ok (out, st') →
      out = l.map (fun p => (p.1, applyBinding bindings p.2)) ∧
      (∀ r, st.usedLocations.testBit r = true →
        st'.usedLocations.testBit r = true) ∧
      (∀ q ∈ pairRanges out, ∀ r, InRange q r →
        st'.usedLocations.testBit r = true) ∧
      (∀ r, (st.usedAttribMap r).isSome = true →
        (st'.usedAttribMap r).isSome = true) := by
  intro l
  induction l with
  | nil =>
    intro st out st' h
    simp only [linkAttributesPass1] at h
    cases h
    refine ⟨rfl, fun r h2 => h2, ?_, fun r h2 => h2⟩
    intro q hq
    simp [pairRanges, attrRanges] at hq
  | cons p rest ih =>
    obtain ⟨idx, a⟩ := p
    intro st out st' h
    simp only [linkAttributesPass1] at h
    cases hloc : (applyBinding bindings a).location with
    | some loc =>
      rw [hloc] at h
      simp only at h
      by_cases hfit : maxA < variableRegisterCount (applyBinding bindings a) + loc
      · rw [if_pos hfit] at h
        simp at h
      · rw [if_neg hfit] at h
        cases hpr : placeRegs strict idx names (applyBinding bindings a).name
          (variableRegisterCount (applyBinding bindings a)) loc st with
        | error e =>
          rw [hpr] at h
          simp only at h
          simp at h
        | ok st2 =>
          rw [hpr] at h
          simp only at h
          cases hrest : linkAttributesPass1 strict maxA bindings names rest st2 with
          | error e =>
            rw [hrest] at h
            simp only at h
            simp at h
          | ok pr =>
            obtain ⟨rest2, st3⟩ := pr
            rw [hrest] at h
            simp only at h
            cases h
            obtain ⟨ihA, ihB, ihC, ihD⟩ := ih st2 rest2 st' hrest
            obtain ⟨prB1, prB2, prB3⟩ := placeRegs_ok_bits strict idx names
              (applyBinding bindings a).name
              (variableRegisterCount (applyBinding bindings a)) loc st st2 hpr
            refine ⟨by rw [ihA, List.map_cons], ?_, ?_, ?_⟩
            · intro r h2
              exact ihB r (prB1 r h2)
            · intro q hq r hr
              simp only [pairRanges, List.map_cons, attrRanges,
                List.filterMap_cons, hloc, Option.map_some'] at hq
              rcases List.mem_cons.mp hq with hq | hq
              · subst hq
                exact ihB r (prB2 r hr.1 hr.2)
              · exact ihC q (by simpa [pairRanges, attrRanges] using hq) r hr
            · intro r h2
              exact ihD r (prB3 r h2)
    | none =>
      rw [hloc] at h
      simp only at h
      cases hrest : linkAttributesPass1 strict maxA bindings names rest st with
      | error e =>
        rw [hrest] at h
        simp only at h
        simp at h
      | ok pr =>
        obtain ⟨rest2, st3⟩ := pr
        rw [hrest] at h
        simp only at h
        cases h
        obtain ⟨ihA, ihB, ihC, ihD⟩ := ih st rest2 st' hrest
        refine ⟨by rw [ihA, List.map_cons], ihB, ?_, ihD⟩
        intro q hq r hr
        simp only [pairRanges, List.map_cons, attrRanges,
          List.filterMap_cons, hloc, Option.map_none'] at hq
        exact ihC q (by simpa [pairRanges, attrRanges] using hq) r hr

/-- First pass under strict aliasing, success: the explicit ranges of the
output are pairwise disjoint and disjoint from every range already
claimed in the map. -/
theorem pass1_strict_disjoint (maxA : Nat) (bindings : String → Option Nat)
    (names : Nat → String) :
    ∀ (l : List (Nat × ShAttribute)) (st : AttribPassState)
      (out : List (Nat × ShAttribute)) (st' : AttribPassState)
      (P : List (Nat × Nat)),
      linkAttributesPass1 true maxA bindings names l st = .ok (out, st') →
      (∀ q ∈ P, ∀ r, InRange q r → (st.usedAttribMap r).isSome = true) →
      List.Pairwise (fun x y => ¬ rangesOverlap x y) (pairRanges out) ∧
      (∀ q ∈ pairRanges out, ∀ p ∈ P, ¬ rangesOverlap p q) := by
  intro l
  induction l with
  | nil =>
    intro st out st' P h hP
    simp only [linkAttributesPass1] at h
    cases h
    constructor
    · simp [pairRanges, attrRanges]
    · intro q hq
      simp [pairRanges, attrRanges] at hq
  | cons p rest ih =>
    obtain ⟨idx, a⟩ := p
    intro st out st' P h hP
    simp only [linkAttributesPass1] at h
    cases hloc : (applyBinding bindings a).location with
    | some loc =>
      rw [hloc] at h
      simp only at h
      by_cases hfit : maxA < variableRegisterCount (applyBinding bindings a) + loc
      · rw [if_pos hfit] at h
        simp at h
      · rw [if_neg hfit] at h
        cases hpr : placeRegs true idx names (applyBinding bindings a).name
          (variableRegisterCount (applyBinding bindings a)) loc st with
        | error e =>
          rw [hpr] at h
          simp only at h
          simp at h
        | ok st2 =>
          rw [hpr] at h
          simp only at h
          cases hrest : linkAttributesPass1 true maxA bindings names rest st2 with
          | error e =>
            rw [hrest] at h
            simp only at h
            simp at h
          | ok pr =>
            obtain ⟨rest2, st3⟩ := pr
            rw [hrest] at h
            simp only at h
            cases h
            obtain ⟨hnone, hsome⟩ := placeRegs_strict_ok idx names
              (applyBinding bindings a).name
              (variableRegisterCount (applyBinding bindings a)) loc st st2 hpr
            obtain ⟨-, -, hmono⟩ := placeRegs_ok_bits true idx names
              (applyBinding bindings a).name
              (variableRegisterCount (applyBinding bindings a)) loc st st2 hpr
            have hheadP : ∀ p2 ∈ P, ¬ rangesOverlap p2
                (loc, variableRegisterCount (applyBinding bindings a)) := by
              intro p2 hp2 hov
              obtain ⟨r, hr1, hr2⟩ := (rangesOverlap_iff _ _).mp hov
              have h1 := hP p2 hp2 r hr1
              have h2 := hnone r hr2.1 hr2.2
              rw [h2] at h1
              simp at h1
            have hP2 : ∀ q ∈ (loc, variableRegisterCount (applyBinding bindings a)) :: P,
                ∀ r, InRange q r → (st2.usedAttribMap r).isSome = true := by
              intro q hq r hr
              rcases List.mem_cons.mp hq with hq | hq
              · subst hq
                exact hsome r hr.1 hr.2
              · exact hmono r (hP q hq r hr)
            obtain ⟨ih1, ih2⟩ := ih st2 rest2 st'
              ((loc, variableRegisterCount (applyBinding bindings a)) :: P) hrest hP2
            have hranges : pairRanges ((idx, applyBinding bindings a) :: rest2) =
                (loc, variableRegisterCount (applyBinding bindings a)) ::
                  pairRanges rest2 := by
              simp [pairRanges, attrRanges, List.filterMap_cons, hloc]
            rw [hranges]
            constructor
            · rw [List.pairwise_cons]
              refine ⟨?_, ih1⟩
              intro q hq
              exact ih2 q hq _ (List.mem_cons_self _ _)
            · intro q hq p2 hp2
              rcases List.mem_cons.mp hq with hq | hq
              · subst hq
                exact hheadP p2 hp2
              · exact ih2 q hq p2 (List.mem_cons_of_mem _ hp2)
    | none =>
      rw [hloc] at h
      simp only at h
      cases hrest : linkAttributesPass1 true maxA bindings names rest st with
      | error e =>
        rw [hrest] at h
        simp only at h
        simp at h
      | ok pr =>
        obtain ⟨rest2, st3⟩ := pr
        rw [hrest] at h
        simp only at h
        cases h
        obtain ⟨ih1, ih2⟩ := ih st rest2 st' P hrest hP
        have hranges : pairRanges ((idx, applyBinding bindings a) :: rest2) =
            pairRanges rest2 := by
          simp [pairRanges, attrRanges, List.filterMap_cons, hloc]
        rw [hranges]
        exact ⟨ih1, ih2⟩

/-- First pass, failure: either some explicitly placed attribute does not
fit below the cap, or the diagnostic is an aliasing diagnostic. -/
theorem pass1_error_shape (strict : Bool) (maxA : Nat)
    (bindings : String → Option Nat) (names : Nat → String) :
    ∀ (l : List (Nat × ShAttribute)) (st : AttribPassState) (e : LinkAttrError),
      linkAttributesPass1 strict maxA bindings names l st = .error e →
      (∃ p ∈ l, ∃ loc, effectiveLocation bindings p.2 = some loc ∧
        maxA < variableRegisterCount p.2 + loc) ∨
      (∃ n1 n2 r, e = .aliasesAttribute n1 n2 r) := by
  intro l
  induction l with
  | nil =>
    intro st e h
    simp [linkAttributesPass1] at h
  | cons p rest ih =>
    obtain ⟨idx, a⟩ := p
    intro st e h
    obtain ⟨hloc0, hreg0, -, -⟩ := applyBinding_fields bindings a
    simp only [linkAttributesPass1] at h
    cases hloc : (applyBinding bindings a).location with
    | some loc =>
      rw [hloc] at h
      simp only at h
      by_cases hfit : maxA < variableRegisterCount (applyBinding bindings a) + loc
      · left
        refine ⟨(idx, a), List.mem_cons_self _ _, loc, ?_, ?_⟩
        · rw [← hloc0]
          exact hloc
        · rw [← hreg0]
          exact hfit
      · rw [if_neg hfit] at h
        cases hpr : placeRegs strict idx names (applyBinding bindings a).name
          (variableRegisterCount (applyBinding bindings a)) loc st with
        | error e2 =>
          rw [hpr] at h
          simp only at h
          cases h
          exact Or.inr (placeRegs_error_shape strict idx names _ _ _ _ _ hpr)
        | ok st2 =>
          rw [hpr] at h
          simp only at h
          cases hrest : linkAttributesPass1 strict maxA bindings names rest st2 with
          | error e2 =>
            rw [hrest] at h
            simp only at h
            cases h
            rcases ih st2 e hrest with h2 | h2
            · left
              obtain ⟨p2, hp2, rest2⟩ := h2
              exact ⟨p2, List.mem_cons_of_mem _ hp2, rest2⟩
            · exact Or.inr h2
          | ok pr =>
            rw [hrest] at h
            simp only at h
            simp at h
    | none =>
      rw [hloc] at h
      simp only at h
      cases hrest : linkAttributesPass1 strict maxA bindings names rest st with
      | error e2 =>
        rw [hrest] at h
        simp only at h
        cases h
        rcases ih st e hrest with h2 | h2
        · left
          obtain ⟨p2, hp2, rest2⟩ := h2
          exact ⟨p2, List.mem_cons_of_mem _ hp2, rest2⟩
        · exact Or.inr h2
      | ok pr =>
        rw [hrest] at h
        simp only at h
        simp at h

/-- Second pass, success: every output attribute has a location; the
bitmask only grows; every output range is an input range or was free on
entry; the bitmask afterwards covers every output range provided it
covered the input ranges; and (given that coverage) pairwise-disjoint
input ranges yield pairwise-disjoint output ranges. -/
theorem pass2_ok_spec (maxA : Nat) :
    ∀ (l : List (Nat × ShAttribute)) (st : AttribPassState)
      (out : List (Nat × ShAttribute)) (st' : AttribPassState),
      linkAttributesPass2 maxA l st = .ok (out, st') →
      (∀ p ∈ out, (p.2.location).isSome = true) ∧
      (∀ r, st.usedLocations.testBit r = true →
        st'.usedLocations.testBit r = true) ∧
      (∀ q ∈ pairRanges out, q ∈ pairRanges l ∨ RangeFree st.usedLocations q) ∧
      ((∀ q ∈ pairRanges l, ∀ r, InRange q r →
          st.usedLocations.testBit r = true) →
        (∀ q ∈ pairRanges out, ∀ r, InRange q r →
          st'.usedLocations.testBit r = true) ∧
        (List.Pairwise (fun x y => ¬ rangesOverlap x y) (pairRanges l) →
          List.Pairwise (fun x y => ¬ rangesOverlap x y) (pairRanges out))) := by
  intro l
  induction l with
  | nil =>
    intro st out st' h
    simp only [linkAttributesPass2] at h
    cases h
    refine ⟨?_, fun r h2 => h2, ?_, ?_⟩
    · intro p hp
      simp at hp
    · intro q hq
      simp [pairRanges, attrRanges] at hq
    · intro hcov
      refine ⟨?_, fun hp => hp⟩
      intro q hq
      simp [pairRanges, attrRanges] at hq
  | cons p rest ih =>
    obtain ⟨idx, a⟩ := p
    intro st out st' h
    simp only [linkAttributesPass2] at h
    cases hloc : a.location with
    | some loc =>
      rw [hloc] at h
      simp only at h
      cases hrest : linkAttributesPass2 maxA rest st with
      | error e =>
        rw [hrest] at h
        simp at h
      | ok pr =>
        obtain ⟨rest2, st2⟩ := pr
        rw [hrest] at h
        simp only at h
        cases h
        obtain ⟨ihA, ihB, ihD, ihCE⟩ := ih st rest2 st' hrest
        have hranges : pairRanges ((idx, a) :: rest) =
            (loc, variableRegisterCount a) :: pairRanges rest := by
          simp [pairRanges, attrRanges, List.filterMap_cons, hloc]
        have hranges2 : pairRanges ((idx, a) :: rest2) =
            (loc, variableRegisterCount a) :: pairRanges rest2 := by
          simp [pairRanges, attrRanges, List.filterMap_cons, hloc]
        refine ⟨?_, ihB, ?_, ?_⟩
        · intro p hp
          rcases List.mem_cons.mp hp with hp | hp
          · subst hp
            simp [hloc]
          · exact ihA p hp
        · intro q hq
          rw [hranges2] at hq
          rw [hranges]
          rcases List.mem_cons.mp hq with hq | hq
          · exact Or.inl (by rw [hq]; exact List.mem_cons_self _ _)
          · rcases ihD q hq with h2 | h2
            · exact Or.inl (List.mem_cons_of_mem _ h2)
            · exact Or.inr h2
        · intro hcov
          rw [hranges] at hcov
          have hcovrest : ∀ q ∈ pairRanges rest, ∀ r, InRange q r →
              st.usedLocations.testBit r = true := by
            intro q hq
            exact hcov q (List.mem_cons_of_mem _ hq)
          obtain ⟨ihC, ihE⟩ := ihCE hcovrest
          have hheadcov : ∀ r, InRange (loc, variableRegisterCount a) r →
              st.usedLocations.testBit r = true :=
            hcov _ (List.mem_cons_self _ _)
          constructor
          · intro q hq r hr
            rw [hranges2] at hq
            rcases List.mem_cons.mp hq with hq | hq
            · subst hq
              exact ihB r (hheadcov r hr)
            · exact ihC q hq r hr
          · intro hpw
            rw [hranges] at hpw
            rw [hranges2, List.pairwise_cons]
            obtain ⟨hpw1, hpw2⟩ := List.pairwise_cons.mp hpw
            refine ⟨?_, ihE hpw2⟩
            intro q hq
            rcases ihD q hq with h2 | h2
            · exact hpw1 q h2
            · intro hov
              obtain ⟨r, hr1, hr2⟩ := (rangesOverlap_iff _ _).mp hov
              have ht := hheadcov r hr1
              have hf := h2 r hr2
              rw [ht] at hf
              cases hf
    | none =>
      rw [hloc] at h
      simp only at h
      cases halloc : allocateFirstFreeBits st.usedLocations
        (variableRegisterCount a) maxA with
      | none =>
        rw [halloc] at h
        simp at h
      | some pr =>
        obtain ⟨availableIndex, newBits⟩ := pr
        rw [halloc] at h
        simp only at h
        by_cases hfit2 : maxA < availableIndex + variableRegisterCount a
        · rw [if_pos hfit2] at h
          simp at h
        · rw [if_neg hfit2] at h
          cases hrest : linkAttributesPass2 maxA rest
            { st with usedLocations := newBits } with
          | error e =>
            rw [hrest] at h
            simp at h
          | ok pr2 =>
            obtain ⟨rest2, st2⟩ := pr2
            rw [hrest] at h
            simp only at h
            cases h
            obtain ⟨hfree, hleast, hbits⟩ := allocateFirstFreeBits_spec
              st.usedLocations (variableRegisterCount a) maxA
              availableIndex newBits halloc
            obtain ⟨ihA, ihB, ihD, ihCE⟩ := ih
              { st with usedLocations := newBits } rest2 st' hrest
            have hmono2 : ∀ r, st.usedLocations.testBit r = true →
                newBits.testBit r = true := by
              intro r h2
              rw [hbits r, h2]
              rfl
            have hranges : pairRanges ((idx, a) :: rest) = pairRanges rest := by
              simp [pairRanges, attrRanges, List.filterMap_cons, hloc]
            have hranges2 : pairRanges
                ((idx, { a with location := some availableIndex }) :: rest2) =
                (availableIndex, variableRegisterCount a) :: pairRanges rest2 := by
              simp [pairRanges, attrRanges, List.filterMap_cons, variableRegisterCount]
            refine ⟨?_, ?_, ?_, ?_⟩
            · intro p hp
              rcases List.mem_cons.mp hp with hp | hp
              · subst hp
                simp
              · exact ihA p hp
            · intro r h2
              exact ihB r (hmono2 r h2)
            · intro q hq
              rw [hranges2] at hq
              rw [hranges]
              rcases List.mem_cons.mp hq with hq | hq
              · subst hq
                exact Or.inr hfree
              · rcases ihD q hq with h2 | h2
                · exact Or.inl h2
                · refine Or.inr ?_
                  intro r hr
                  have h3 := h2 r hr
                  dsimp only at h3
                  cases h4 : st.usedLocations.testBit r with
                  | false => rfl
                  | true =>
                    rw [hmono2 r h4] at h3
                    cases h3
            · intro hcov
              rw [hranges] at hcov
              have hcov2 : ∀ q ∈ pairRanges rest, ∀ r, InRange q r →
                  newBits.testBit r = true := by
                intro q hq r hr
                exact hmono2 r (hcov q hq r hr)
              obtain ⟨ihC, ihE⟩ := ihCE hcov2
              have hheadbits : ∀ r, InRange (availableIndex, variableRegisterCount a) r →
                  newBits.testBit r = true := by
                intro r hr
                rw [hbits r]
                have : decide (availableIndex ≤ r ∧
                    r < availableIndex + variableRegisterCount a) = true := by
                  exact decide_eq_true hr
                rw [this]
                simp
              constructor
              · intro q hq r hr
                rw [hranges2] at hq
                rcases List.mem_cons.mp hq with hq | hq
                · subst hq
                  exact ihB r (hheadbits r hr)
                · exact ihC q hq r hr
              · intro hpw
                rw [hranges] at hpw
                rw [hranges2, List.pairwise_cons]
                refine ⟨?_, ihE hpw⟩
                intro q hq
                rcases ihD q hq with h2 | h2
                · intro hov
                  obtain ⟨r, hr1, hr2⟩ := (rangesOverlap_iff _ _).mp hov
                  have ht := hcov q h2 r hr2
                  have hf := hfree r hr1
                  rw [ht] at hf
                  cases hf
                · intro hov
                  obtain ⟨r, hr1, hr2⟩ := (rangesOverlap_iff _ _).mp hov
                  have ht := hheadbits r hr1
                  have hf := h2 r hr2
                  dsimp only at hf
                  rw [ht] at hf
                  cases hf

/-- The explicit ranges after the top-level first pass are the effective
explicit ranges of the considered attributes. -/
theorem pass1_top_ranges (strict : Bool) (inp : AttribLinkInput)
    (attrs1 : List (Nat × ShAttribute)) (st1 : AttribPassState)
    (h1 : linkAttributesPass1 strict inp.maxVertexAttribs inp.bindings
      (attributeNameAt (consideredAttributes inp))
      (withIndices 0 (consideredAttributes inp)) ⟨fun _ => none, 0⟩ =
      .ok (attrs1, st1)) :
    pairRanges attrs1 = explicitRanges inp.bindings (consideredAttributes inp) := by
  obtain ⟨e1A, -, -, -⟩ := pass1_ok_spec strict inp.maxVertexAttribs inp.bindings
    (attributeNameAt (consideredAttributes inp))
    (withIndices 0 (consideredAttributes inp)) ⟨fun _ => none, 0⟩ attrs1 st1 h1
  simp only [pairRanges]
  rw [e1A, List.map_map]
  rw [show (Prod.snd ∘ fun p : Nat × ShAttribute =>
      (p.1, applyBinding inp.bindings p.2)) =
    (fun p : Nat × ShAttribute => applyBinding inp.bindings p.2) from rfl]
  rw [withIndices_map (applyBinding inp.bindings) 0 (consideredAttributes inp)]
  exact attrRanges_applyBinding inp.bindings (consideredAttributes inp)

/-- C2: when linking succeeds on an attribute set with no explicit
location collisions, every resulting attribute has an assigned location;
the register ranges [location, location + registers) of the resulting
attributes are pairwise non-overlapping; the register count is exactly
ceil(componentCount / 4) (the unique r with componentCount <= 4r <
componentCount + 4); and the first-fit allocator used for attributes
without an explicit or API-bound location returns the first free
contiguous register run and marks exactly it. -/
theorem linkAttributes_packing (inp : AttribLinkInput) (out : List ShAttribute)
    (hnc : List.Pairwise (fun x y => ¬ rangesOverlap x y)
      (explicitRanges inp.bindings (consideredAttributes inp)))
    (hok : linkAttributes inp = .ok out) :
    (∀ a ∈ out, a.location.isSome = true) ∧
    List.Pairwise (fun x y => ¬ rangesOverlap x y) (attrRanges out) ∧
    (∀ a : ShAttribute, a.componentCount ≤ 4 * variableRegisterCount a ∧
      4 * variableRegisterCount a < a.componentCount + 4) ∧
    (∀ bits n size idx newBits,
      allocateFirstFreeBits bits n size = some (idx, newBits) →
      RangeFree bits (idx, n) ∧ (∀ j, j < idx → ¬ RangeFree bits (j, n)) ∧
      (∀ r, newBits.testBit r = (bits.testBit r ||
        decide (idx ≤ r ∧ r < idx + n)))) := by
  simp only [linkAttributes] at hok
  cases h1 : linkAttributesPass1 (strictAliasing inp) inp.maxVertexAttribs
    inp.bindings (attributeNameAt (consideredAttributes inp))
    (withIndices 0 (consideredAttributes inp)) ⟨fun _ => none, 0⟩ with
  | error e =>
    rw [h1] at hok
    simp at hok
  | ok pr1 =>
    obtain ⟨attrs1, st1⟩ := pr1
    rw [h1] at hok
    simp only at hok
    cases h2 : linkAttributesPass2 inp.maxVertexAttribs attrs1 st1 with
    | error e =>
      rw [h2] at hok
      simp at hok
    | ok pr2 =>
      obtain ⟨attrs2, st2⟩ := pr2
      rw [h2] at hok
      simp only at hok
      cases hok
      obtain ⟨-, -, e1C, -⟩ := pass1_ok_spec (strictAliasing inp)
        inp.maxVertexAttribs inp.bindings
        (attributeNameAt (consideredAttributes inp))
        (withIndices 0 (consideredAttributes inp)) ⟨fun _ => none, 0⟩
        attrs1 st1 h1
      have hpr1 := pass1_top_ranges (strictAliasing inp) inp attrs1 st1 h1
      obtain ⟨p2A, -, -, p2CE⟩ := pass2_ok_spec inp.maxVertexAttribs attrs1 st1
        attrs2 st2 h2
      obtain ⟨-, p2E⟩ := p2CE e1C
      have hpw2 : List.Pairwise (fun x y => ¬ rangesOverlap x y)
          (pairRanges attrs2) := by
        apply p2E
        rw [hpr1]
        exact hnc
      have hsub : (if 300 ≤ inp.shaderVersion then
            (attrs2.map Prod.snd).filter (·.active)
          else attrs2.map Prod.snd).Sublist (attrs2.map Prod.snd) := by
        by_cases hv : 300 ≤ inp.shaderVersion
        · rw [if_pos hv]
          exact List.filter_sublist _
        · rw [if_neg hv]
      refine ⟨?_, ?_, ?_, ?_⟩
      · intro a ha
        have ha2 : a ∈ attrs2.map Prod.snd := hsub.mem ha
        obtain ⟨p, hp, hpa⟩ := List.mem_map.mp ha2
        rw [← hpa]
        exact p2A p hp
      · exact List.Pairwise.sublist (hsub.filterMap _) hpw2
      · intro a
        unfold variableRegisterCount
        omega
      · intro bits n size idx newBits h
        exact allocateFirstFreeBits_spec bits n size idx newBits h

/-- Witness for C2 at a concrete input: a 9-component attribute without a
location, a vec4 at explicit location 1, and a vec4 bound by the API to
location 5 link successfully into non-overlapping register ranges. -/
theorem linkAttributes_packing_witness :
    List.Pairwise (fun x y => ¬ rangesOverlap x y)
      (attrRanges
        [{ name := "c", location := some 2, componentCount := 9,
           active := true, builtin := false },
         { name := "d", location := some 1, componentCount := 4,
           active := true, builtin := false },
         { name := "e", location := some 5, componentCount := 4,
           active := true, builtin := false }]) :=
  (linkAttributes_packing packingWitnessInput _ (by decide) (by rfl)).2.1

/-- Register loop under strict aliasing, success: every map entry
afterwards is either the entry-state entry or a fresh record of the
walked attribute at a register of the walked run. -/
theorem placeRegs_ok_map (idx : Nat) (names : Nat → String) (name : String) :
    ∀ (count start : Nat) (st st' : AttribPassState),
      placeRegs true idx names name count start st = .ok st' →
      ∀ reg, st'.usedAttribMap reg = st.usedAttribMap reg ∨
        (st'.usedAttribMap reg = some idx ∧ start ≤ reg ∧
          reg < start + count) := by
  intro count
  induction count with
  | zero =>
    intro start st st' h reg
    simp only [placeRegs] at h
    cases h
    exact Or.inl rfl
  | succ count ih =>
    intro start st st' h reg
    simp only [placeRegs, placeOneReg] at h
    cases hm : st.usedAttribMap start with
    | some otherIdx =>
      rw [hm] at h
      simp at h
    | none =>
      rw [hm] at h
      simp only at h
      rcases ih (start + 1)
        { usedAttribMap := Function.update st.usedAttribMap start (some idx)
          usedLocations := st.usedLocations ||| (1 <<< start) } st' h reg with
        h2 | ⟨h2, h3, h4⟩
      · dsimp only at h2
        by_cases hr : reg = start
        · subst hr
          rw [Function.update_same] at h2
          exact Or.inr ⟨h2, le_refl _, by omega⟩
        · rw [Function.update_noteq hr] at h2
          exact Or.inl h2
      · exact Or.inr ⟨h2, by omega, by omega⟩

/-- Register loop under strict aliasing, failure: the diagnostic carries
the walked attribute's name, the name of the attribute the entry state
records at the colliding register, and that register, which lies in the
walked run. -/
theorem placeRegs_strict_error (idx : Nat) (names : Nat → String)
    (name : String) :
    ∀ (count start : Nat) (st : AttribPassState) (e : LinkAttrError),
      placeRegs true idx names name count start st = .error e →
      ∃ rr otherIdx, start ≤ rr ∧ rr < start + count ∧
        st.usedAttribMap rr = some otherIdx ∧
        e = .aliasesAttribute name (names otherIdx) rr := by
  intro count
  induction count with
  | zero =>
    intro start st e h
    simp [placeRegs] at h
  | succ count ih =>
    intro start st e h
    simp only [placeRegs, placeOneReg] at h
    cases hm : st.usedAttribMap start with
    | some otherIdx =>
      rw [hm] at h
      simp only [if_true] at h
      cases h
      exact ⟨start, otherIdx, le_refl _, by omega, hm, rfl⟩
    | none =>
      rw [hm] at h
      simp only at h
      obtain ⟨rr, otherIdx, h1, h2, h3, h4⟩ := ih (start + 1) _ e h
      dsimp only at h3
      refine ⟨rr, otherIdx, by omega, by omega, ?_, h4⟩
      rwa [Function.update_noteq (by omega : rr ≠ start)] at h3

/-- A member of the indexed list carries an index at or past the start,
and the list at the offset index is its attribute. -/
theorem withIndices_get_of_mem {α : Type} :
    ∀ (start : Nat) (l : List α) (p : Nat × α),
      p ∈ withIndices start l →
      start ≤ p.1 ∧ l.get? (p.1 - start) = some p.2 := by
  intro start l
  induction l generalizing start with
  | nil => intro p h; simp [withIndices] at h
  | cons a rest ih =>
    intro p h
    simp only [withIndices, List.mem_cons] at h
    rcases h with h | h
    · subst h
      simp
    · obtain ⟨h1, h2⟩ := ih (start + 1) p h
      refine ⟨by omega, ?_⟩
      rw [show p.1 - start = (p.1 - (start + 1)) + 1 from by omega,
        List.get?_cons_succ]
      exact h2

/-- Indices of the indexed list are pairwise distinct. -/
theorem withIndices_pairwise_ne {α : Type} :
    ∀ (start : Nat) (l : List α),
      List.Pairwise (fun p q => p.1 ≠ q.1) (withIndices start l) := by
  intro start l
  induction l generalizing start with
  | nil => exact List.Pairwise.nil
  | cons a rest ih =>
    simp only [withIndices, List.pairwise_cons]
    refine ⟨?_, ih (start + 1)⟩
    intro q hq
    have h1 := (withIndices_get_of_mem (start + 1) rest q hq).1
    show start ≠ q.1
    omega

/-- First pass under strict aliasing, failure when every attribute fits:
the diagnostic names two distinct attributes of the full list whose
effective explicit register ranges both contain the reported register.
The invariant hypothesis states that every entry of the usedAttribMap
records an attribute of the full list, outside the remaining work list,
at a register of its effective range. -/
theorem pass1_strict_error (maxA : Nat) (bindings : String → Option Nat)
    (attrs : List ShAttribute) :
    ∀ (l : List (Nat × ShAttribute)) (st : AttribPassState) (e : LinkAttrError),
      linkAttributesPass1 true maxA bindings (attributeNameAt attrs) l st =
        .error e →
      (∀ p ∈ l, attrs.get? p.1 = some p.2) →
      List.Pairwise (fun p q => p.1 ≠ q.1) l →
      (∀ p ∈ l, fitsBelow bindings maxA p.2 = true) →
      (∀ reg k, st.usedAttribMap reg = some k →
        (∃ a loc, attrs.get? k = some a ∧
          effectiveLocation bindings a = some loc ∧
          InRange (loc, variableRegisterCount a) reg) ∧
        ∀ p ∈ l, p.1 ≠ k) →
      ∃ i j rr ai aj loci locj, i ≠ j ∧
        attrs.get? i = some ai ∧ attrs.get? j = some aj ∧
        effectiveLocation bindings ai = some loci ∧
        effectiveLocation bindings aj = some locj ∧
        InRange (loci, variableRegisterCount ai) rr ∧
        InRange (locj, variableRegisterCount aj) rr ∧
        e = .aliasesAttribute ai.name aj.name rr := by
  intro l
  induction l with
  | nil =>
    intro st e h hget hne hfit hmap
    simp [linkAttributesPass1] at h
  | cons p rest ih =>
    obtain ⟨idx, a⟩ := p
    intro st e h hget hne hfit hmap
    obtain ⟨hloc0, hreg0, hname0, -⟩ := applyBinding_fields bindings a
    simp only [linkAttributesPass1] at h
    cases hloc : (applyBinding bindings a).location with
    | some loc =>
      rw [hloc] at h
      simp only at h
      have heffi : effectiveLocation bindings a = some loc := by
        rw [← hloc0]; exact hloc
      have hgeti : attrs.get? idx = some a :=
        hget (idx, a) (List.mem_cons_self _ _)
      by_cases hfit1 : maxA < variableRegisterCount (applyBinding bindings a) + loc
      · exfalso
        have hf : fitsBelow bindings maxA a = true :=
          hfit (idx, a) (List.mem_cons_self _ _)
        rw [fitsBelow, heffi] at hf
        simp at hf
        rw [hreg0] at hfit1
        omega
      · rw [if_neg hfit1] at h
        cases hpr : placeRegs true idx (attributeNameAt attrs)
          (applyBinding bindings a).name
          (variableRegisterCount (applyBinding bindings a)) loc st with
        | error e2 =>
          rw [hpr] at h
          simp only at h
          cases h
          obtain ⟨rr, otherIdx, hr1, hr2, hmget, hE⟩ :=
            placeRegs_strict_error idx (attributeNameAt attrs)
              (applyBinding bindings a).name
              (variableRegisterCount (applyBinding bindings a)) loc st e hpr
          obtain ⟨⟨aj, locj, hgetj, heffj, hinj⟩, hnotin⟩ :=
            hmap rr otherIdx hmget
          have hne2 : idx ≠ otherIdx :=
            hnotin (idx, a) (List.mem_cons_self _ _)
          have hnamej : attributeNameAt attrs otherIdx = aj.name := by
            rw [attributeNameAt, hgetj]; rfl
          rw [hreg0] at hr2
          refine ⟨idx, otherIdx, rr, a, aj, loc, locj, hne2, hgeti, hgetj,
            heffi, heffj, ⟨hr1, hr2⟩, hinj, ?_⟩
          rw [hE, hname0, hnamej]
        | ok st2 =>
          rw [hpr] at h
          simp only at h
          cases hrest : linkAttributesPass1 true maxA bindings
            (attributeNameAt attrs) rest st2 with
          | error e2 =>
            rw [hrest] at h
            simp only at h
            cases h
            apply ih st2 e hrest
            · intro p hp
              exact hget p (List.mem_cons_of_mem _ hp)
            · exact (List.pairwise_cons.mp hne).2
            · intro p hp
              exact hfit p (List.mem_cons_of_mem _ hp)
            · intro reg k hk
              rcases placeRegs_ok_map idx (attributeNameAt attrs)
                (applyBinding bindings a).name
                (variableRegisterCount (applyBinding bindings a)) loc st st2
                hpr reg with hold | ⟨hnew, hge, hlt⟩
              · rw [hold] at hk
                obtain ⟨hfacts, hnotin⟩ := hmap reg k hk
                exact ⟨hfacts, fun p hp => hnotin p (List.mem_cons_of_mem _ hp)⟩
              · rw [hnew] at hk
                cases hk
                rw [hreg0] at hlt
                refine ⟨⟨a, loc, hgeti, heffi, ⟨hge, hlt⟩⟩, ?_⟩
                intro p hp
                exact ((List.pairwise_cons.mp hne).1 p hp).symm
          | ok pr =>
            rw [hrest] at h
            simp only at h
            simp at h
    | none =>
      rw [hloc] at h
      simp only at h
      cases hrest : linkAttributesPass1 true maxA bindings
        (attributeNameAt attrs) rest st with
      | error e2 =>
        rw [hrest] at h
        simp only at h
        cases h
        apply ih st e hrest
        · intro p hp
          exact hget p (List.mem_cons_of_mem _ hp)
        · exact (List.pairwise_cons.mp hne).2
        · intro p hp
          exact hfit p (List.mem_cons_of_mem _ hp)
        · intro reg k hk
          obtain ⟨hfacts, hnotin⟩ := hmap reg k hk
          exact ⟨hfacts, fun p hp => hnotin p (List.mem_cons_of_mem _ hp)⟩
      | ok pr =>
        rw [hrest] at h
        simp only at h
        simp at h

/-- C3: under strict aliasing rules (shader version 300 and above, WebGL
compatibility, or the no-aliasing limitation), when every explicitly
placed attribute fits below the cap and the effective explicit ranges are
not pairwise disjoint, linking fails with an aliasing diagnostic that
names two distinct considered attributes whose effective register ranges
both contain the reported shared register; in the scenario of two vec4
attributes a and b both at explicit location 0 in a version-300 vertex
stage the diagnostic names b, a and the shared location 0. -/
theorem linkAttributes_strict_aliasing (inp : AttribLinkInput)
    (hstrict : strictAliasing inp = true)
    (hfit : ∀ a ∈ consideredAttributes inp,
      fitsBelow inp.bindings inp.maxVertexAttribs a = true)
    (hoverlap : ¬ List.Pairwise (fun x y => ¬ rangesOverlap x y)
      (explicitRanges inp.bindings (consideredAttributes inp))) :
    (∃ i j rr ai aj loci locj, i ≠ j ∧
      (consideredAttributes inp).get? i = some ai ∧
      (consideredAttributes inp).get? j = some aj ∧
      effectiveLocation inp.bindings ai = some loci ∧
      effectiveLocation inp.bindings aj = some locj ∧
      InRange (loci, variableRegisterCount ai) rr ∧
      InRange (locj, variableRegisterCount aj) rr ∧
      linkAttributes inp = .error (.aliasesAttribute ai.name aj.name rr)) ∧
    linkAttributes aliasedScenarioInput =
      .error (.aliasesAttribute "b" "a" 0) := by
  refine ⟨?_, by rfl⟩
  cases h1 : linkAttributesPass1 (strictAliasing inp) inp.maxVertexAttribs
    inp.bindings (attributeNameAt (consideredAttributes inp))
    (withIndices 0 (consideredAttributes inp)) ⟨fun _ => none, 0⟩ with
  | ok pr1 =>
    exfalso
    obtain ⟨attrs1, st1⟩ := pr1
    rw [hstrict] at h1
    obtain ⟨hpw, -⟩ := pass1_strict_disjoint inp.maxVertexAttribs inp.bindings
      (attributeNameAt (consideredAttributes inp))
      (withIndices 0 (consideredAttributes inp)) ⟨fun _ => none, 0⟩
      attrs1 st1 [] h1
      (by intro q hq; exact absurd hq (List.not_mem_nil q))
    apply hoverlap
    have hpr1 := pass1_top_ranges true inp attrs1 st1 h1
    rw [← hpr1]
    exact hpw
  | error e =>
    rw [hstrict] at h1
    obtain ⟨i, j, rr, ai, aj, loci, locj, hij, hgi, hgj, hei, hej, hri, hrj,
      hE⟩ :=
      pass1_strict_error inp.maxVertexAttribs inp.bindings
        (consideredAttributes inp)
        (withIndices 0 (consideredAttributes inp)) ⟨fun _ => none, 0⟩ e h1
        (fun p hp => by
          have h2 := withIndices_get_of_mem 0 (consideredAttributes inp) p hp
          simpa using h2.2)
        (withIndices_pairwise_ne 0 _)
        (fun p hp => hfit p.2 (withIndices_mem 0 _ p hp))
        (fun reg k hk => Option.noConfusion hk)
    refine ⟨i, j, rr, ai, aj, loci, locj, hij, hgi, hgj, hei, hej, hri, hrj,
      ?_⟩
    simp only [linkAttributes]
    rw [hstrict, h1]
    simp only
    rw [hE]

/-- Witness for C3 at the claim's scenario: two vec4 attributes named a
and b both at explicit location 0 in a version-300 vertex stage make the
link fail with the diagnostic naming b, a and the shared location 0. -/
theorem linkAttributes_strict_aliasing_witness :
    linkAttributes aliasedScenarioInput =
      .error (.aliasesAttribute "b" "a" 0) :=
  (linkAttributes_strict_aliasing aliasedScenarioInput (by decide) (by decide)
    (by decide)).2

/-- Counterexample to C4 as stated: a non-separable program that linked
successfully (tables present, no pending LinkingState) and whose relink
fails at a step after shader validation ends up with a reset executable,
not the previously successful one: unlink() has cleared it in place and
no LinkingState exists to restore it from. -/
theorem link_failure_claim_counterexample :
    Program.linked
      { executable := { tables := some [1] }, infoLog := [],
        linkingState := none, linked := true, separable := false } = true ∧
    Program.linkingState
      { executable := { tables := some [1] }, infoLog := [],
        linkingState := none, linked := true, separable := false } = none ∧
    (Program.link
      { executable := { tables := some [1] }, infoLog := [],
        linkingState := none, linked := true, separable := false }
      (.stepFail "linkAttributes failed")).linked = false ∧
    (Program.link
      { executable := { tables := some [1] }, infoLog := [],
        linkingState := none, linked := true, separable := false }
      (.stepFail "linkAttributes failed")).infoLog ≠ [] ∧
    (Program.link
      { executable := { tables := some [1] }, infoLog := [],
        linkingState := none, linked := true, separable := false }
      (.stepFail "linkAttributes failed")).executable ≠
      Program.executable
        { executable := { tables := some [1] }, infoLog := [],
          linkingState := none, linked := true, separable := false } := by
  refine ⟨rfl, rfl, rfl, ?_, ?_⟩ <;> decide

/-- C4 (amended): for a previously successfully linked program with no
pending link, a failing link attempt writes a diagnostic to the (reset)
log and aborts the link (link status false); the previously successful
executable is left untouched when the failure happens during attached
shader validation, but a failure at any later linking step leaves the
program with an executable that was reset in place by unlink(), not with
the previous one. -/
theorem link_failure_semantics (p : Program) (msg : String)
    (hls : p.linkingState = none) :
    ((p.link (.validateFail msg)).infoLog = [msg] ∧
     (p.link (.validateFail msg)).linked = false ∧
     (p.link (.validateFail msg)).executable = p.executable) ∧
    ((p.link (.stepFail msg)).infoLog = [msg] ∧
     (p.link (.stepFail msg)).linked = false ∧
     (p.link (.stepFail msg)).executable = resetExecutable p.executable) := by
  simp [Program.link, Program.linkImpl, Program.unlink, hls]

/-- Witness for C4 (amended) at a concrete previously linked program: the
failing relink resets the executable. -/
theorem link_failure_semantics_witness :
    (Program.link
      { executable := { tables := some [2] }, infoLog := [],
        linkingState := none, linked := true, separable := false }
      (.stepFail "diag")).executable =
      resetExecutable { tables := some [2] } :=
  (link_failure_semantics
    { executable := { tables := some [2] }, infoLog := [],
      linkingState := none, linked := true, separable := false }
    "diag" rfl).2.2.2

/-- Reading back an integer record. -/
theorem rdInt_rt (v : Int) (rest : List StreamItem) :
    rdInt (wInt v ++ rest) = some (v, rest) := rfl

/-- Reading back a count record. -/
theorem rdNat_rt (n : Nat) (rest : List StreamItem) :
    rdNat (wNat n ++ rest) = some (n, rest) := by
  simp only [wNat, List.cons_append, List.nil_append, rdNat, rdInt]
  rw [if_neg (by omega)]
  simp

/-- Reading back a boolean record. -/
theorem rdBool_rt (v : Bool) (rest : List StreamItem) :
    rdBool (wBool v ++ rest) = some (v, rest) := rfl

/-- Reading back a string record. -/
theorem rdStr_rt (v : String) (rest : List StreamItem) :
    rdStr (wStr v ++ rest) = some (v, rest) := rfl

/-- Reading back a fixed-length sequence of records, allowing the reader
to reconstruct a transformed record (identity for most record types, the
unit-zeroing for sampler bindings). -/
theorem rdListN_rt {α β : Type} (w : α → List StreamItem) (r : Rd β)
    (g : α → β) (hr : ∀ a rest, r (w a ++ rest) = some (g a, rest)) :
    ∀ (l : List α) (rest : List StreamItem),
      rdListN r l.length ((l.map w).flatten ++ rest) = some (l.map g, rest) := by
  intro l
  induction l with
  | nil => intro rest; simp [rdListN]
  | cons a tail ih =>
    intro rest
    simp only [List.map_cons, List.flatten_cons, List.length_cons,
      List.append_assoc, rdListN, hr a, ih rest]

/-- Reading back a length-prefixed sequence of records. -/
theorem rdList_rt {α β : Type} (w : α → List StreamItem) (r : Rd β)
    (g : α → β) (hr : ∀ a rest, r (w a ++ rest) = some (g a, rest))
    (l : List α) (rest : List StreamItem) :
    rdList r (wList w l ++ rest) = some (l.map g, rest) := by
  simp only [wList, List.append_assoc, rdList, rdNat_rt, rdListN_rt w r g hr]

/-- Reading back an integer vector. -/
theorem rdIntList_rt (l : List Int) (rest : List StreamItem) :
    rdIntList (wIntList l ++ rest) = some (l, rest) := by
  have := rdList_rt wInt rdInt id (fun a rest => rdInt_rt a rest) l rest
  simpa [rdIntList, wIntList] using this

/-- Reading back an active-flag block. -/
theorem rdActive_rt (v : ActiveShaderBits) (rest : List StreamItem) :
    rdActive (wActive v ++ rest) = some (v, rest) := rfl

/-- Reading back a ShaderVar record. -/
theorem rdShaderVar_rt (v : ShaderVar) (rest : List StreamItem) :
    rdShaderVar (wShaderVar v ++ rest) = some (v, rest) := by
  simp only [wShaderVar, List.append_assoc, wInt, wStr, wBool,
    List.cons_append, List.nil_append, rdShaderVar, rdInt, rdStr, rdBool,
    rdIntList_rt]

/-- Reading back a BlockMemberInfo record. -/
theorem rdBlockMemberInfo_rt (v : BlockMemberInfo) (rest : List StreamItem) :
    rdBlockMemberInfo (wBlockMemberInfo v ++ rest) = some (v, rest) := rfl

/-- Reading back a ShaderVariableBuffer record. -/
theorem rdShaderVariableBuffer_rt (v : ShaderVariableBuffer)
    (rest : List StreamItem) :
    rdShaderVariableBuffer (wShaderVariableBuffer v ++ rest) = some (v, rest) := by
  simp only [wShaderVariableBuffer, List.append_assoc, wInt, wBool, wActive,
    List.cons_append, List.nil_append, rdShaderVariableBuffer, rdInt,
    rdActive, rdBool, rdIntList_rt]

/-- Reading back an InterfaceBlock record. -/
theorem rdInterfaceBlock_rt (v : InterfaceBlock) (rest : List StreamItem) :
    rdInterfaceBlock (wInterfaceBlock v ++ rest) = some (v, rest) := by
  simp only [wInterfaceBlock, List.append_assoc, wStr, wBool, wInt,
    List.cons_append, List.nil_append, rdInterfaceBlock, rdStr, rdBool,
    rdInt, rdShaderVariableBuffer_rt]

/-- Reading back a BufferVariable record. -/
theorem rdBufferVariable_rt (v : BufferVariable) (rest : List StreamItem) :
    rdBufferVariable (wBufferVariable v ++ rest) = some (v, rest) := by
  simp only [wBufferVariable, List.append_assoc, wInt, wActive, wBool,
    List.cons_append, List.nil_append, rdBufferVariable, rdShaderVar_rt,
    rdInt, rdBlockMemberInfo_rt, rdActive, rdBool]

/-- Reading back a LinkedUniform record. -/
theorem rdLinkedUniform_rt (v : LinkedUniform) (rest : List StreamItem) :
    rdLinkedUniform (wLinkedUniform v ++ rest) = some (v, rest) := by
  simp only [wLinkedUniform, List.append_assoc, wInt, wActive, wBool,
    List.cons_append, List.nil_append, rdLinkedUniform, rdShaderVar_rt,
    rdInt, rdBlockMemberInfo_rt, rdIntList_rt, rdActive, rdBool]

/-- Reading back a VariableLocation record. -/
theorem rdVariableLocation_rt (v : VariableLocation) (rest : List StreamItem) :
    rdVariableLocation (wVariableLocation v ++ rest) = some (v, rest) := rfl

/-- Reading back a transform feedback varying record. -/
theorem rdTransformFeedbackVarying_rt (v : TransformFeedbackVarying)
    (rest : List StreamItem) :
    rdTransformFeedbackVarying (wTransformFeedbackVarying v ++ rest) =
      some (v, rest) := by
  simp only [wTransformFeedbackVarying, List.append_assoc, wInt, wStr,
    List.cons_append, List.nil_append, rdTransformFeedbackVarying,
    rdIntList_rt, rdInt, rdStr]

/-- Reading back a sampler binding record zeroes the units. -/
theorem rdSamplerBinding_rt (v : SamplerBindingS) (rest : List StreamItem) :
    rdSamplerBinding (wSamplerBinding v ++ rest) =
      some (zeroedSamplerBinding v, rest) := by
  simp only [wSamplerBinding, List.append_assoc, wInt, wNat,
    List.cons_append, List.nil_append, rdSamplerBinding, rdInt]
  rw [show rdNat (StreamItem.i (v.boundTextureUnits.length : Int) :: rest) =
    some (v.boundTextureUnits.length, rest) from rdNat_rt _ rest]
  rfl

/-- Reading back an image binding record. -/
theorem rdImageBinding_rt (v : ImageBinding) (rest : List StreamItem) :
    rdImageBinding (wImageBinding v ++ rest) = some (v, rest) := by
  have hunits := rdListN_rt wInt rdInt id (fun a rest => rdInt_rt a rest)
    v.boundImageUnits rest
  simp only [List.map_id] at hunits
  simp only [wImageBinding, List.append_assoc, wInt, wNat,
    List.cons_append, List.nil_append, rdImageBinding]
  rw [show rdNat (StreamItem.i (v.boundImageUnits.length : Int) ::
      (StreamItem.i v.textureType :: ((v.boundImageUnits.map wInt).flatten ++ rest))) =
    some (v.boundImageUnits.length, StreamItem.i v.textureType ::
      ((v.boundImageUnits.map wInt).flatten ++ rest)) from rdNat_rt _ _]
  simp only [rdInt, hunits]

/-- Reading back a program attribute record. -/
theorem rdProgramAttrib_rt (v : ProgramAttrib) (rest : List StreamItem) :
    rdProgramAttrib (wProgramAttrib v ++ rest) = some (v, rest) := by
  simp only [wProgramAttrib, List.append_assoc, wInt,
    List.cons_append, List.nil_append, rdProgramAttrib, rdShaderVar_rt, rdInt]

/-- Reading back an output variable record. -/
theorem rdOutputVar_rt (v : OutputVar) (rest : List StreamItem) :
    rdOutputVar (wOutputVar v ++ rest) = some (v, rest) := by
  simp only [wOutputVar, List.append_assoc, wInt,
    List.cons_append, List.nil_append, rdOutputVar, rdShaderVar_rt, rdInt]

/-- Reading back a range record. -/
theorem rdRange_rt (v : RangeUI) (rest : List StreamItem) :
    rdRange (wRange v ++ rest) = some (v, rest) := by
  simp only [wRange, List.append_assoc, rdRange, rdNat_rt]

/-- Raw byte run of the build identifier. -/
theorem rdCommit_rt (commit : List Int) (rest : List StreamItem) :
    rdListN rdInt commit.length ((commit.map StreamItem.i) ++ rest) =
      some (commit, rest) := by
  have hflat : (commit.map wInt).flatten = commit.map StreamItem.i := by
    induction commit with
    | nil => rfl
    | cons a tail ih => simp [wInt, ih]
  have h := rdListN_rt wInt rdInt id (fun a rest => rdInt_rt a rest) commit rest
  simp only [List.map_id] at h
  rw [← hflat]
  exact h

/-- Reading back a program-attribute table. -/
theorem rdList_programAttrib_rt (l : List ProgramAttrib) (rest : List StreamItem) :
    rdList rdProgramAttrib (wList wProgramAttrib l ++ rest) = some (l, rest) := by
  simpa using rdList_rt wProgramAttrib rdProgramAttrib id
    (fun a r => rdProgramAttrib_rt a r) l rest

/-- Reading back a uniform table. -/
theorem rdList_linkedUniform_rt (l : List LinkedUniform) (rest : List StreamItem) :
    rdList rdLinkedUniform (wList wLinkedUniform l ++ rest) = some (l, rest) := by
  simpa using rdList_rt wLinkedUniform rdLinkedUniform id
    (fun a r => rdLinkedUniform_rt a r) l rest

/-- Reading back a location table. -/
theorem rdList_variableLocation_rt (l : List VariableLocation)
    (rest : List StreamItem) :
    rdList rdVariableLocation (wList wVariableLocation l ++ rest) =
      some (l, rest) := by
  simpa using rdList_rt wVariableLocation rdVariableLocation id
    (fun a r => rdVariableLocation_rt a r) l rest

/-- Reading back an interface-block table. -/
theorem rdList_interfaceBlock_rt (l : List InterfaceBlock)
    (rest : List StreamItem) :
    rdList rdInterfaceBlock (wList wInterfaceBlock l ++ rest) =
      some (l, rest) := by
  simpa using rdList_rt wInterfaceBlock rdInterfaceBlock id
    (fun a r => rdInterfaceBlock_rt a r) l rest

/-- Reading back a buffer-variable table. -/
theorem rdList_bufferVariable_rt (l : List BufferVariable)
    (rest : List StreamItem) :
    rdList rdBufferVariable (wList wBufferVariable l ++ rest) =
      some (l, rest) := by
  simpa using rdList_rt wBufferVariable rdBufferVariable id
    (fun a r => rdBufferVariable_rt a r) l rest

/-- Reading back an atomic-counter-buffer table. -/
theorem rdList_shaderVariableBuffer_rt (l : List ShaderVariableBuffer)
    (rest : List StreamItem) :
    rdList rdShaderVariableBuffer (wList wShaderVariableBuffer l ++ rest) =
      some (l, rest) := by
  simpa using rdList_rt wShaderVariableBuffer rdShaderVariableBuffer id
    (fun a r => rdShaderVariableBuffer_rt a r) l rest

/-- Reading back the transform feedback varying table. -/
theorem rdList_xfbVarying_rt (l : List TransformFeedbackVarying)
    (rest : List StreamItem) :
    rdList rdTransformFeedbackVarying (wList wTransformFeedbackVarying l ++ rest) =
      some (l, rest) := by
  simpa using rdList_rt wTransformFeedbackVarying rdTransformFeedbackVarying id
    (fun a r => rdTransformFeedbackVarying_rt a r) l rest

/-- Reading back an output-variable table. -/
theorem rdList_outputVar_rt (l : List OutputVar) (rest : List StreamItem) :
    rdList rdOutputVar (wList wOutputVar l ++ rest) = some (l, rest) := by
  simpa using rdList_rt wOutputVar rdOutputVar id
    (fun a r => rdOutputVar_rt a r) l rest

/-- Reading back an integer table. -/
theorem rdList_int_rt (l : List Int) (rest : List StreamItem) :
    rdList rdInt (wList wInt l ++ rest) = some (l, rest) := by
  simpa using rdList_rt wInt rdInt id (fun a r => rdInt_rt a r) l rest

/-- Reading back the sampler-binding table zeroes every unit list. -/
theorem rdList_samplerBinding_rt (l : List SamplerBindingS)
    (rest : List StreamItem) :
    rdList rdSamplerBinding (wList wSamplerBinding l ++ rest) =
      some (l.map zeroedSamplerBinding, rest) :=
  rdList_rt wSamplerBinding rdSamplerBinding zeroedSamplerBinding
    (fun a r => rdSamplerBinding_rt a r) l rest

/-- Reading back an image-binding table. -/
theorem rdList_imageBinding_rt (l : List ImageBinding) (rest : List StreamItem) :
    rdList rdImageBinding (wList wImageBinding l ++ rest) = some (l, rest) := by
  simpa using rdList_rt wImageBinding rdImageBinding id
    (fun a r => rdImageBinding_rt a r) l rest

/-- C5: serializing a linked program and deserializing the stream under
the same build identifier and the same context API version reproduces
every resource table element-wise: the flattened uniform list, the
uniform-location table, the uniform-block, buffer-variable and
storage-block lists, the attribute and output variable and location
tables, the sampler, image and atomic-counter-buffer binding tables, and
the three uniform index ranges.  The hypotheses state that the program is
in its as-linked state: its transform feedback content is admissible for
caching, and its sampler units are the ones the binding-qualifier replay
of postResolveLink produces from freshly constructed (zeroed) bindings,
which holds for every successfully linked program since resolveLink runs
that replay. -/
theorem serialize_deserialize_roundtrip (commit : List Int) (major minor : Int)
    (disableXfbCaching : Bool) (t : ProgramTables) (rest : List StreamItem)
    (hxfb : ¬ (t.linkedTransformFeedbackVaryings.length ≠ 0 ∧ disableXfbCaching))
    (hsampler : t.samplerBindings =
      applySamplerBindingQualifiers t.uniforms t.samplerUniformRange.low
        (t.samplerBindings.map zeroedSamplerBinding)) :
    deserializeProgram commit major minor disableXfbCaching
      (serializeProgram commit major minor t ++ rest) = some (t, rest) := by
  simp only [serializeProgram, List.append_assoc, deserializeProgram,
    rdCommit_rt, wInt, wBool, List.cons_append, List.nil_append, rdInt, rdBool,
    rdIntList_rt, deserializeTables, rdList_programAttrib_rt,
    rdList_linkedUniform_rt, rdList_variableLocation_rt,
    rdList_interfaceBlock_rt, rdList_bufferVariable_rt,
    rdList_shaderVariableBuffer_rt, rdList_xfbVarying_rt, rdList_outputVar_rt,
    rdList_int_rt, rdList_samplerBinding_rt, rdList_imageBinding_rt,
    rdRange_rt, ne_eq]
  rw [if_neg (by simp), if_neg (by simp),
    if_neg (fun hc => hxfb ⟨hc.1, hc.2⟩), ← hsampler]

/-- Witness for C5: a concrete one-sampler program round-trips to itself
through the binary stream. -/
theorem serialize_deserialize_roundtrip_witness :
    deserializeProgram [9] 3 0 false
      (serializeProgram [9] 3 0 roundtripWitnessTables ++ []) =
      some (roundtripWitnessTables, []) :=
  serialize_deserialize_roundtrip [9] 3 0 false roundtripWitnessTables []
    (by decide) (by decide)

/-- C8: the coordinate-correction pass computes a replacement whose xy
value is ((builtin.xy * rotation - pivot) * flip) + pivot (rotation
omitted when not requested); the initialization and correction statements
are inserted at the top of main in that order; the original builtin no
longer occurs among the uses after replacement (unless the replacement
name is the builtin itself, which the pass never picks); and on
gl_FragCoord with flip = (1,-1), pivot = (320,240), no rotation, input
coordinate (300,200), the corrected coordinate is (300,280). -/
theorem rotateAndFlipBuiltinVariable_correct :
    (∀ (flip pivot builtin : Vec2Q) (rot : Option Mat2Q),
      (rotateAndFlipCorrectionExpr flip pivot rot).eval builtin =
        (((match rot with
           | some m => m.timesVec builtin
           | none => builtin).sub pivot).mul flip).add pivot) ∧
    (∀ (flip pivot : Vec2Q) (rot : Option Mat2Q) (seq : List CorrStmt),
      rotateAndFlipInsert flip pivot rot seq =
        CorrStmt.initReplacement ::
          CorrStmt.assignCorrected (rotateAndFlipCorrectionExpr flip pivot rot) ::
            seq) ∧
    (∀ (uses : List String) (builtinName replacementName : String),
      builtinName ∈ replaceVariable uses builtinName replacementName ↔
        (builtinName ∈ uses ∧ replacementName = builtinName)) ∧
    (rotateAndFlipCorrectionExpr ⟨1, -1⟩ ⟨320, 240⟩ none).eval ⟨300, 200⟩ =
      ⟨300, 280⟩ := by
  refine ⟨?_, ?_, ?_, ?_⟩
  · intro flip pivot builtin rot
    cases rot <;> rfl
  · intro flip pivot rot seq
    rfl
  · intro uses builtinName replacementName
    exact replaceVariable_mem builtinName replacementName uses
  · norm_num [rotateAndFlipCorrectionExpr, CorrExpr.eval, Vec2Q.sub,
      Vec2Q.mul, Vec2Q.add]

end Angle
